import Mathlib

/-!
# Verification of the synthetic-data generator core

A shallow embedding, in Lean 4, of the algorithmic core of the
`Synthetic_Data_Generator` repository: the per-row Thalassemia signature
classifier, the medical-noise calibrator and the synthetic-row generator
(`src/Dashboard.js`), the histogram / smoothing / overlap / privacy-risk
scoring pipeline (`src/Results.js`), the rare-combination detector
(`src/PrivacyReport.js`), and the server-side privacy metrics
(`src/server.js`).

JavaScript numbers are modelled by `ℚ` (exact arithmetic; float rounding is
not modelled) except where the code calls `Math.sqrt`, which forces `ℝ`.
`Math.random()` draws are modelled as an explicit stream `ℕ → ℚ` of draws,
consumed in program order.  JS cell values occurring in cleaned rows are
modelled by `CellVal`; `Number(·)` coercion on them by `jsNumber`
(`Number("") = 0`, `Number` of a non-numeric string is `NaN`, modelled as
`none`; by the cleaning invariant of `selectAndClean`, numeric strings have
already been converted to numbers, so a `txt` cell is never numeric).
-/

namespace SynDataGen

/-! ## JS numeric primitives -/

/-- `Math.round`: round half towards positive infinity. -/
def jsRound (q : ℚ) : ℤ := ⌊q + 1/2⌋

/-- `Math.round(q * 10^d) / 10^d`, the pattern the code uses for rounding to
`d` decimal places; also the model of `Number(q.toFixed(d))` (ECMA `toFixed`
picks the larger candidate on ties, i.e. rounds half up). -/
def roundTo (d : ℕ) (q : ℚ) : ℚ := (jsRound (q * 10 ^ d) : ℚ) / 10 ^ d

/-- `Number(x.toFixed(3))`, used throughout `Results.js`. -/
def toFixed3 (q : ℚ) : ℚ := roundTo 3 q

theorem jsRound_le (q : ℚ) : (jsRound q : ℚ) ≤ q + 1/2 := Int.floor_le _

theorem lt_jsRound (q : ℚ) : q - 1/2 < (jsRound q : ℚ) := by
  have h := Int.lt_floor_add_one (q + 1/2)
  unfold jsRound
  linarith

theorem jsRound_nonneg {q : ℚ} (h : 0 ≤ q) : 0 ≤ jsRound q := by
  have : ((0 : ℤ) : ℚ) ≤ q + 1/2 := by push_cast; linarith
  exact Int.le_floor.mpr this

theorem jsRound_le_of_le {q : ℚ} {n : ℤ} (h : q ≤ n) : jsRound q ≤ n := by
  have : jsRound q < n + 1 := by
    have : q + 1/2 < ((n + 1 : ℤ) : ℚ) := by push_cast; linarith
    exact Int.floor_lt.mpr this
  omega

theorem le_jsRound_of_le {q : ℚ} {n : ℤ} (h : (n : ℚ) ≤ q) : n ≤ jsRound q := by
  refine Int.le_floor.mpr ?_
  linarith

/-- `toFixed3` moves a value by at most `1/2000` (upper side). -/
theorem toFixed3_le (q : ℚ) : toFixed3 q ≤ q + 1/2000 := by
  unfold toFixed3 roundTo
  rw [div_le_iff (by norm_num : (0:ℚ) < 10 ^ 3)]
  have h := jsRound_le (q * 10 ^ 3)
  norm_num at h ⊢
  linarith

/-- `toFixed3` moves a value by at most `1/2000` (lower side). -/
theorem le_toFixed3 (q : ℚ) : q - 1/2000 < toFixed3 q := by
  unfold toFixed3 roundTo
  rw [lt_div_iff (by norm_num : (0:ℚ) < 10 ^ 3)]
  have h := lt_jsRound (q * 10 ^ 3)
  norm_num at h ⊢
  linarith

theorem toFixed3_nonneg {q : ℚ} (h : 0 ≤ q) : 0 ≤ toFixed3 q := by
  unfold toFixed3 roundTo
  have : 0 ≤ jsRound (q * 10 ^ 3) := jsRound_nonneg (by positivity)
  positivity

/-- A JavaScript value as it occurs in a cleaned data row: a finite number,
the empty string `""` (the absent marker produced by cleaning), a
non-numeric free-form string, a boolean, or `NaN`. -/
inductive CellVal where
  | num (q : ℚ)
  | blank
  | txt (s : String)
  | bool (b : Bool)
  | nan
deriving DecidableEq, Inhabited

/-- `Number(v)` for a `CellVal`; `none` models `NaN`.
`Number("") = 0`; `Number` of a non-numeric string is `NaN` (by the cleaning
invariant every `txt` cell is non-numeric); `Number(true) = 1`,
`Number(false) = 0`. -/
def jsNumber : CellVal → Option ℚ
  | .num q => some q
  | .blank => some 0
  | .txt _ => none
  | .bool b => some (if b then 1 else 0)
  | .nan => none

/-! ## `Dashboard.js`: data model of a cleaned row -/

/-- A row produced by `selectAndClean`: fixed canonical columns.  Numeric
columns hold `.num`, `.blank` (absent) or a non-numeric `.txt` leftover. -/
structure CleanRow where
  Patient_ID : String
  Gender : String
  Genotype : String
  Hemoglobin : CellVal
  MCV : CellVal
  MCH : CellVal
  RBC : CellVal
  Ferritin : CellVal
  Likely_Thalassemia : Bool
deriving DecidableEq, Inhabited

/-! ## `Dashboard.js` lines 191–211: `isLikelyThalassemia` -/

/-- The integer score accumulated by `isLikelyThalassemia`.  Each numeric
column is read through `Number(·)` (`jsNumber`); a `NaN` fails the
`!Number.isNaN` guard and contributes nothing. -/
def thalScore (r : CleanRow) : ℤ :=
  (match jsNumber r.MCV with
   | some mcv => if 0 < mcv ∧ mcv ≤ 80 then 1 else 0
   | none => 0) +
  (match jsNumber r.MCH with
   | some mch => if 0 < mch ∧ mch ≤ 27 then 1 else 0
   | none => 0) +
  (match jsNumber r.Hemoglobin with
   | some hb => if 0 < hb ∧ hb ≤ 12 then 1 else 0
   | none => 0) +
  (match jsNumber r.RBC with
   | some rbc => if 4 < rbc then 1 else 0
   | none => 0) +
  (match jsNumber r.Ferritin with
   | some ferritin => if ferritin < 15 then -1 else 0
   | none => 0)

/-- `isLikelyThalassemia`: true iff the accumulated score is at least 2. -/
def isLikelyThalassemia (r : CleanRow) : Bool := 2 ≤ thalScore r

/-! ## `Dashboard.js` lines 214–257: `applyMedicalNoise` -/

/-- One numeric field's noise profile: clipping range and noise fraction. -/
structure NoiseCfg where
  min : ℚ
  max : ℚ
  noisePct : ℚ
deriving DecidableEq

/-- The five recognized numeric columns. -/
inductive NumKey where
  | Hemoglobin | MCV | MCH | RBC | Ferritin
deriving DecidableEq

/-- `commonRanges` of `applyMedicalNoise`. -/
def commonRanges : NumKey → NoiseCfg
  | .Hemoglobin => ⟨5, 18, 8/100⟩
  | .MCV => ⟨50, 110, 6/100⟩
  | .MCH => ⟨15, 40, 7/100⟩
  | .RBC => ⟨5/2, 8, 6/100⟩
  | .Ferritin => ⟨5, 5000, 12/100⟩

/-- `thalRanges` of `applyMedicalNoise`. -/
def thalRanges : NumKey → NoiseCfg
  | .Hemoglobin => ⟨7, 13, 6/100⟩
  | .MCV => ⟨55, 80, 4/100⟩
  | .MCH => ⟨18, 27, 5/100⟩
  | .RBC => ⟨4, 15/2, 5/100⟩
  | .Ferritin => ⟨10, 2000, 10/100⟩

/-- `config = preserveThal ? (thalRanges[key] || commonRanges[key])
: (commonRanges[key] || null)`: both tables define all five keys, so the
profile always exists and the no-config fallback branch is unreachable. -/
def selectedCfg (k : NumKey) (preserveThal : Bool) : NoiseCfg :=
  if preserveThal then thalRanges k else commonRanges k

/-- The value entering the clipping step of `applyMedicalNoise`:
`newVal = num + noise`, then — overwriting, not adding — for `num < 10`
`newVal = num + (r2 * 0.5 - 0.25)`.  `r1`, `r2` are the two successive
`Math.random()` draws. -/
def preClipValue (cfg : NoiseCfg) (num r1 r2 : ℚ) : ℚ :=
  let noise := (r1 * 2 - 1) * cfg.noisePct * max 1 num
  let newVal := num + noise
  if num < 10 then num + (r2 * (1/2) - 1/4) else newVal

/-- Rounding precision per field: `Math.round(v*100)/100` for Hemoglobin,
`Math.round(v*10)/10` for Ferritin, `Math.round(v*1000)/1000` otherwise. -/
def roundForKey (k : NumKey) (v : ℚ) : ℚ :=
  match k with
  | .Hemoglobin => roundTo 2 v
  | .Ferritin => roundTo 1 v
  | _ => roundTo 3 v

/-- Numeric path of `applyMedicalNoise` (the input passed the `""`/`NaN`
guards): perturb, clip into `[cfg.min, cfg.max]`, round. -/
def applyMedicalNoiseNum (k : NumKey) (num : ℚ) (preserveThal : Bool) (r1 r2 : ℚ) : ℚ :=
  let cfg := selectedCfg k preserveThal
  roundForKey k (max cfg.min (min cfg.max (preClipValue cfg num r1 r2)))

/-! ## Random draws

`Math.random()` is modelled as a stream of draws `ℕ → ℚ`, consumed in
program order; `shift k` advances past `k` consumed draws. -/

/-- A stream of `Math.random()` results. -/
def RandStream : Type := ℕ → ℚ

/-- Advance a stream past `k` consumed draws. -/
def shift (k : ℕ) (rng : RandStream) : RandStream := fun n => rng (n + k)

/-- `applyMedicalNoise` on a cell value, threading the random stream.
Cells failing the `value === ""`/`"NA"`/`Number.isNaN` guards are returned
unchanged without consuming a draw; a numeric cell consumes the noise draw
and, when `num < 10`, the jitter draw. -/
def applyMedicalNoise (k : NumKey) (v : CellVal) (preserveThal : Bool)
    (rng : RandStream) : CellVal × RandStream :=
  match v with
  | .num q =>
      (.num (applyMedicalNoiseNum k q preserveThal (rng 0) (rng 1)),
       if q < 10 then shift 2 rng else shift 1 rng)
  | v => (v, rng)

/-! ## `Dashboard.js` lines 260–341: `generateSyntheticFromOriginal` -/

/-- Count occurrences of each string, in first-occurrence (JS object
insertion) order. -/
def bumpCount : List (String × ℕ) → String → List (String × ℕ)
  | [], v => [(v, 1)]
  | (k, c) :: rest, v =>
      if k = v then (k, c + 1) :: rest else (k, c) :: bumpCount rest v

/-- `map[v] = (map[v] || 0) + 1` folded over all rows' values. -/
def countValues (vs : List String) : List (String × ℕ) :=
  vs.foldl bumpCount []

/-- Categorical distribution for one column: occurrence counts as weights,
falling back to `[{key: "Unknown", weight: 1}]` when empty. -/
def catChoicesFor (vs : List String) : List (String × ℚ) :=
  let entries := (countValues vs).map (fun p => (p.1, (p.2 : ℚ)))
  if entries = [] then [("Unknown", 1)] else entries

/-- `numericBases[k].mean`: mean over the values with finite `Number(·)`
(so `""` cells contribute `0`), or `0` when none. -/
def numericMean (cells : List CellVal) : ℚ :=
  let vals := cells.filterMap jsNumber
  if vals.length = 0 then 0 else vals.sum / vals.length

/-- `if (preserveThal && base[k])`: multiply the base category's weight by
1.4 on first match, or push it with weight 1.4. -/
def biasWeights : List (String × ℚ) → String → List (String × ℚ)
  | [], b => [(b, 7/5)]
  | (k, w) :: rest, b =>
      if k = b then (k, w * (7/5)) :: rest else (k, w) :: biasWeights rest b

/-- The remainder-subtraction loop: subtract each weight from `pick` in
order; the first candidate driving it `≤ 0` is selected. -/
def pickLoop : List (String × ℚ) → ℚ → Option String
  | [], _ => none
  | (k, w) :: rest, pick =>
      if pick - w ≤ 0 then some k else pickLoop rest (pick - w)

/-- Weighted categorical sampling for one output cell, consuming one draw:
`pick = Math.random() * total`, loop, with the last candidate as the
initial (fallback) selection. -/
def sampleCat (choices : List (String × ℚ)) (baseVal : String)
    (preserveThal : Bool) (r : ℚ) : String :=
  let weighted := if preserveThal ∧ baseVal ≠ "" then biasWeights choices baseVal
                  else choices
  let total := (weighted.map (·.2)).sum
  ((pickLoop weighted (r * total)).getD
    ((weighted.getLast?.map (·.1)).getD ""))

/-! ### Patient identifiers

`` `P${String(i + 1).padStart(3, "0")}` ``: decimal rendering of `i+1`
left-padded with `'0'` to length 3, behind a leading `'P'`. -/

/-- Decimal digit character. -/
def decChar (d : ℕ) : Char :=
  match d with
  | 0 => '0' | 1 => '1' | 2 => '2' | 3 => '3' | 4 => '4'
  | 5 => '5' | 6 => '6' | 7 => '7' | 8 => '8' | 9 => '9'
  | _ => '?'

/-- Numeric value of a decimal digit character. -/
def decVal (c : Char) : ℕ := c.toNat - 48

/-- `String(n)` for a natural number: decimal digits, most significant
first, no leading zeros (and `"0"` for 0). -/
def natDigits (n : ℕ) : List Char :=
  if h : n < 10 then [decChar n]
  else natDigits (n / 10) ++ [decChar (n % 10)]
decreasing_by exact Nat.div_lt_self (by omega) (by omega)

/-- `s.padStart(3, "0")` on a digit list. -/
def padStart3 (l : List Char) : List Char :=
  List.replicate (3 - l.length) '0' ++ l

/-- The fresh sequential identifier of output row `i`. -/
def pid (i : ℕ) : String := String.mk ('P' :: padStart3 (natDigits (i + 1)))

/-- Evaluate a digit list back to a number (decimal fold). -/
def parseDec (l : List Char) : ℕ := l.foldl (fun acc c => 10 * acc + decVal c) 0

/-! ### The generation loop -/

/-- Per-numeric-cell base value: the precomputed mean when the base cell is
absent, else `Number(baseVal)` (which is `NaN` for a leftover non-numeric
string). -/
def rawNumeric (v : CellVal) (mean : ℚ) : CellVal :=
  match v with
  | .blank => .num mean
  | v => match jsNumber v with
         | some q => .num q
         | none => .nan

/-- Build synthetic row `i` from its base row, consuming draws in program
order: the five numeric columns (Hemoglobin, MCV, MCH, RBC, Ferritin),
then Gender, then Genotype. -/
def genRow (catG catT : List (String × ℚ)) (means : NumKey → ℚ)
    (orig : List CleanRow) (i : ℕ) (rng : RandStream) : CleanRow × RandStream :=
  let base := orig.getD (i % orig.length) default
  let preserveThal := base.Likely_Thalassemia
  let p1 := applyMedicalNoise .Hemoglobin (rawNumeric base.Hemoglobin (means .Hemoglobin)) preserveThal rng
  let p2 := applyMedicalNoise .MCV (rawNumeric base.MCV (means .MCV)) preserveThal p1.2
  let p3 := applyMedicalNoise .MCH (rawNumeric base.MCH (means .MCH)) preserveThal p2.2
  let p4 := applyMedicalNoise .RBC (rawNumeric base.RBC (means .RBC)) preserveThal p3.2
  let p5 := applyMedicalNoise .Ferritin (rawNumeric base.Ferritin (means .Ferritin)) preserveThal p4.2
  let g := sampleCat catG base.Gender preserveThal (p5.2 0)
  let t := sampleCat catT base.Genotype preserveThal (p5.2 1)
  (⟨pid i, g, t, p1.1, p2.1, p3.1, p4.1, p5.1, preserveThal⟩, shift 2 p5.2)

/-- The `for (let i = 0; i < numRows; i++)` loop, pushing one row per
iteration. -/
def genLoop (catG catT : List (String × ℚ)) (means : NumKey → ℚ)
    (orig : List CleanRow) : ℕ → ℕ → RandStream → List CleanRow
  | _, 0, _ => []
  | i, rem + 1, rng =>
      let p := genRow catG catT means orig i rng
      p.1 :: genLoop catG catT means orig (i + 1) rem p.2

/-- The precomputed per-field means (`numericBases[k].mean`). -/
def genMeans (orig : List CleanRow) : NumKey → ℚ := fun k =>
  numericMean (orig.map (fun r =>
    match k with
    | .Hemoglobin => r.Hemoglobin
    | .MCV => r.MCV
    | .MCH => r.MCH
    | .RBC => r.RBC
    | .Ferritin => r.Ferritin))

/-- `generateSyntheticFromOriginal(origRows, numRows)` with an explicit
random stream: precompute the two categorical distributions and the
numeric means, then run the generation loop from index 0. -/
def generateSyntheticFromOriginal (orig : List CleanRow) (numRows : ℕ)
    (rng : RandStream) : List CleanRow :=
  genLoop (catChoicesFor (orig.map (·.Gender)))
    (catChoicesFor (orig.map (·.Genotype))) (genMeans orig) orig 0 numRows rng

/-! ## `Results.js`: generic rows

`Results.js`, `PrivacyReport.js` and `server.js` read rows with dynamic
keys; a row is an association list in key-insertion order. -/

/-- A generic data row. -/
def Row : Type := List (String × CellVal)

/-- `r[k]`: `none` models `undefined`. -/
def jsGet (r : Row) (k : String) : Option CellVal :=
  (r.find? (fun p => p.1 == k)).map (·.2)

/-- `rows.map(r => Number(r[key])).filter(Number.isFinite)`:
`Number(undefined)` and `Number` of a non-numeric string are `NaN` and are
dropped; `Number("") = 0` is kept. -/
def collectVals (rows : List Row) (key : String) : List ℚ :=
  rows.filterMap (fun r => (jsGet r key).bind jsNumber)

/-! ## `Results.js` lines 54–86: `computeHistogramPercent` -/

/-- `Math.min(...vals)` (0 for an empty list, unreached). -/
def listMin : List ℚ → ℚ
  | [] => 0
  | x :: xs => xs.foldl min x

/-- `Math.max(...vals)` (0 for an empty list, unreached). -/
def listMax : List ℚ → ℚ
  | [] => 0
  | x :: xs => xs.foldl max x

/-- `if (idx < 0) idx = 0; if (idx >= bins) idx = bins - 1`. -/
def clampIdx (bins : ℕ) (i : ℤ) : ℕ :=
  if i < 0 then 0 else if (bins : ℤ) ≤ i then bins - 1 else i.toNat

/-- Bin index of a value: `Math.floor((v - min) / binWidth)` clamped. -/
def histIdx (mn binWidth : ℚ) (bins : ℕ) (v : ℚ) : ℕ :=
  clampIdx bins ⌊(v - mn) / binWidth⌋

/-- `counts[idx]++` on a counts vector (out-of-range indices ignored; after
clamping the index is always in range when `bins ≥ 1`). -/
def bumpAt : List ℕ → ℕ → List ℕ
  | [], _ => []
  | c :: rest, 0 => (c + 1) :: rest
  | c :: rest, n + 1 => c :: bumpAt rest n

/-- One output histogram bin: `{binIndex, x, percent}`. -/
structure HistBin where
  binIndex : ℕ
  x : ℚ
  percent : ℚ
deriving DecidableEq, Inhabited

/-- Declarative count of the values landing in bin `i` (used to state
theorems about the imperative `counts` fold). -/
def countIn (vals : List ℚ) (mn binWidth : ℚ) (bins : ℕ) (i : ℕ) : ℕ :=
  (vals.filter (fun v => histIdx mn binWidth bins v = i)).length

/-- `min = globalRange ? globalRange.min : Math.min(...vals)`. -/
def histMn (vals : List ℚ) (gr : Option (ℚ × ℚ)) : ℚ :=
  match gr with | some g => g.1 | none => listMin vals

/-- `max = globalRange ? globalRange.max : Math.max(...vals)`. -/
def histMx (vals : List ℚ) (gr : Option (ℚ × ℚ)) : ℚ :=
  match gr with | some g => g.2 | none => listMax vals

/-- `range = max - min || 1` (the degenerate-range fallback). -/
def histRange (vals : List ℚ) (gr : Option (ℚ × ℚ)) : ℚ :=
  if histMx vals gr - histMn vals gr = 0 then 1
  else histMx vals gr - histMn vals gr

/-- `binWidth = range / bins`. -/
def histBinW (vals : List ℚ) (gr : Option (ℚ × ℚ)) (bins : ℕ) : ℚ :=
  histRange vals gr / (bins : ℚ)

/-- The `counts` array built by the `vals.forEach` loop. -/
def histCounts (vals : List ℚ) (mn binWidth : ℚ) (bins : ℕ) : List ℕ :=
  vals.foldl (fun cs v => bumpAt cs (histIdx mn binWidth bins v))
    (List.replicate bins 0)

/-- `computeHistogramPercent(rows, key, bins, globalRange)`.  The source
maps over the counts array (of length `bins`) with its index; this is
rendered as a map over `List.range bins` reading `counts` by index. -/
def computeHistogramPercent (rows : List Row) (key : String) (bins : ℕ)
    (globalRange : Option (ℚ × ℚ)) : List HistBin :=
  let vals := collectVals rows key
  if vals.length = 0 then []
  else
    let mn := histMn vals globalRange
    let binWidth := histBinW vals globalRange bins
    let counts := histCounts vals mn binWidth bins
    let total := vals.length
    (List.range bins).map (fun i =>
      let count := counts.getD i 0
      let center := mn + ((i : ℚ) + 1/2) * binWidth
      ⟨i, toFixed3 center, toFixed3 (((count : ℚ) / (total : ℚ)) * 100)⟩)

/-! ## `Results.js` lines 88–104: `smoothSeries` -/

/-- Centered moving average of the `percent`s with window truncated at the
ends; each output element spreads the input element and overwrites
`percent` with the 3-decimal-rounded window mean. -/
def smoothSeries (series : List HistBin) (window : ℕ) : List HistBin :=
  if series.length ≤ 1 then series
  else
    (List.range series.length).map (fun i =>
      let start := i - window / 2
      let stop := min (series.length - 1) (i + window / 2)
      let cnt := stop + 1 - start
      let sum := ((List.range cnt).map
        (fun j => (series.getD (start + j) default).percent)).sum
      { series.getD i default with percent := toFixed3 (sum / (cnt : ℚ)) })

/-! ## `Results.js` lines 156–163: the overlap (quality) score -/

/-- `qualityScore`: `null` when either aligned histogram is empty, else the
rounded sum over aligned bins of the pointwise minimum percent. -/
def overlapScore (a b : List HistBin) : Option ℤ :=
  if a.length = 0 ∨ b.length = 0 then none
  else some (jsRound (((List.range (min a.length b.length)).map (fun i =>
    min ((a.getD i default).percent) ((b.getD i default).percent))).sum))

/-! ## `PrivacyReport.js` lines 72–97: `computeRareCombos` -/

/-- `String(q)` for a number: exact decimal for integers; non-integers are
rendered `num/den` as a stand-in (JS float formatting is not modelled —
categorical columns hold strings, so no counted combination depends on
it). -/
def jsNumToString (q : ℚ) : String :=
  if q.den = 1 then
    if q.num < 0 then String.mk ('-' :: natDigits q.num.natAbs)
    else String.mk (natDigits q.num.natAbs)
  else String.mk (natDigits q.num.natAbs ++ '/' :: natDigits q.den) ++
    (if q.num < 0 then "-" else "")

/-- `String(r[c] ?? "")`. -/
def cellToString : Option CellVal → String
  | none => ""
  | some (.num q) => jsNumToString q
  | some .blank => ""
  | some (.txt s) => s
  | some (.bool b) => if b then "true" else "false"
  | some .nan => "NaN"

/-- `!isNaN(Number(v))` (false for `undefined`). -/
def numberNotNaN (v : Option CellVal) : Bool := (v.bind jsNumber).isSome

/-- `typeof v === "number" || !isNaN(Number(v))`, the rare-combo numeric
column heuristic applied to the first row. -/
def reportNumericCell (v : Option CellVal) : Bool :=
  (match v with
   | some (.num _) => true
   | some .nan => true
   | _ => false) || numberNotNaN v

/-- The non-numeric columns of the first row, the composite-key columns. -/
def categoricalKeysOf (r0 : Row) : List String :=
  let keys := r0.map (·.1)
  let numericKeys := keys.filter (fun k => reportNumericCell (jsGet r0 k))
  keys.filter (fun k => !(numericKeys.contains k))

/-- The composite key of a row: column values joined with `"||"`. -/
def comboKey (cats : List String) (r : Row) : String :=
  String.intercalate "||" (cats.map (fun c => cellToString (jsGet r c)))

/-- The count table in first-occurrence order, before the rarity filter. -/
def comboCounts (orig : List Row) : List (String × ℕ) :=
  countValues (orig.map (comboKey (categoricalKeysOf (orig.headD []))))

/-- The count entries passing `cnt / Math.max(1, orig.length) < 0.05`. -/
def rareEntries (orig : List Row) : List (String × ℕ) :=
  (comboCounts orig).filter
    (fun p => (p.2 : ℚ) / (max 1 (orig.length : ℚ)) < 5/100)

/-- `combo.split("||").join(" | ")` with the count carried over. -/
def relabelCombo (p : String × ℕ) : String × ℕ :=
  (String.intercalate " | " (p.1.splitOn "||"), p.2)

/-- `computeRareCombos`: empty input short-circuits; otherwise the rare
entries capped at 12 and relabelled. -/
def computeRareCombos (orig : List Row) : List (String × ℕ) :=
  if orig.length = 0 then []
  else ((rareEntries orig).take 12).map relabelCombo

/-! ## `server.js` lines 15–44: `computePrivacyMetrics` -/

/-- The server's metrics triple. -/
structure ServerMetrics where
  similarity : ℤ
  reidRisk : ℤ
  attrRisk : ℤ
deriving DecidableEq

/-- `Number(r[k]) || 0`. -/
def numOrZero (r : Row) (k : String) : ℚ := ((jsGet r k).bind jsNumber).getD 0

/-- Column mean used by the server: sum over all rows (with `NaN → 0`)
divided by `Math.max(1, length)`. -/
def serverMean (rows : List Row) (k : String) : ℚ :=
  (rows.map (fun r => numOrZero r k)).sum / max 1 (rows.length : ℚ)

/-- `computePrivacyMetrics(originalData, syntheticData)`; `r` is the
`Math.random()` draw behind `attrRisk`.  On an empty side it returns the
all-zero triple (server.js lines 16–18). -/
def computePrivacyMetrics (originalData syntheticData : List Row) (r : ℚ) :
    ServerMetrics :=
  if originalData.length = 0 ∨ syntheticData.length = 0 then ⟨0, 0, 0⟩
  else
    let r0 := originalData.headD []
    let numericKeys := (r0.map (·.1)).filter (fun k => numberNotNaN (jsGet r0 k))
    let totalDiff := (numericKeys.map (fun k =>
      |serverMean originalData k - serverMean syntheticData k|)).sum
    let totalMean := (numericKeys.map (fun k => |serverMean originalData k|)).sum
    let similarity := max 0 (jsRound (100 - totalDiff / (totalMean + 1/10^9) * 100))
    let reidRisk := max 0 (min 100 (jsRound (max 0 (100 - (similarity : ℚ)))))
    let attrRisk := max 0 (min 100 (jsRound (r * 10 + 5)))
    ⟨similarity, reidRisk, attrRisk⟩

/-! ## `Results.js` lines 166–222: `privacyRisk`

`Math.sqrt` forces `ℝ` here; these definitions are the only noncomputable
part of the embedding (every guard that decides the sentinel cases is still
evaluable by `simp`). -/

/-- `Math.round` over `ℝ`. -/
noncomputable def jsRoundR (x : ℝ) : ℤ := ⌊x + 1/2⌋

/-- `Number(x.toFixed(3))` over `ℝ`. -/
noncomputable def toFixed3R (x : ℝ) : ℝ := (jsRoundR (x * 1000) : ℝ) / 1000

/-- The quasi-identifier candidate columns. -/
def quasiKeys : List String := ["Hemoglobin", "MCV", "MCH", "RBC", "Ferritin"]

/-- The result record `{ riskPercent, threshold, flagged }`. -/
structure Assessment where
  riskPercent : ℤ
  threshold : ℝ
  flagged : ℕ

/-- Column mean over the finite original values
(`reduce(...)/Math.max(1, vals.length)`). -/
noncomputable def statMean (orig : List Row) (k : String) : ℝ :=
  let vals := (collectVals orig k).map (fun q => (q : ℝ))
  vals.sum / max 1 (vals.length : ℝ)

/-- Column standard deviation, `|| 1` when zero. -/
noncomputable def statStd (orig : List Row) (k : String) : ℝ :=
  let vals := (collectVals orig k).map (fun q => (q : ℝ))
  let mean := statMean orig k
  let s := Real.sqrt ((vals.map (fun v => (v - mean) * (v - mean))).sum /
    max 1 (vals.length : ℝ))
  if s = 0 then 1 else s

/-- `toVec`: z-score each quasi-identifier column, `0` for a `NaN` cell. -/
noncomputable def toVec (orig : List Row) (keys : List String) (row : Row) : List ℝ :=
  keys.map (fun k =>
    match (jsGet row k).bind jsNumber with
    | some q => ((q : ℝ) - statMean orig k) / statStd orig k
    | none => 0)

/-- Euclidean distance, iterating over the first vector's indices with the
second read back by index (`(a[i] || 0) - (b[i] || 0)`). -/
noncomputable def dist (a b : List ℝ) : ℝ :=
  Real.sqrt (((List.range a.length).map
    (fun i => (a.getD i 0 - b.getD i 0) ^ 2)).sum)

/-- `let minD = Infinity; for (...) if (dd < minD) minD = dd`: `none`
models `Infinity`. -/
noncomputable def jsMinList (ds : List ℝ) : Option ℝ :=
  ds.foldl (fun m d =>
    match m with
    | none => some d
    | some m' => if d < m' then some d else some m') none

/-- Nearest-original distance of one synthetic vector (the original set is
nonempty whenever this is reached, so the fold is never `none`). -/
noncomputable def nnDist (origVecs : List (List ℝ)) (sv : List ℝ) : ℝ :=
  (jsMinList (origVecs.map (fun ov => dist sv ov))).getD 0

/-- Original-to-original nearest-neighbor distance of row `i`, skipping the
self-match; `best === Infinity ? 0 : best`. -/
noncomputable def origNearestAt (origVecs : List (List ℝ)) (i : ℕ) : ℝ :=
  match jsMinList (((List.range origVecs.length).filter (fun j => j ≠ i)).map
    (fun j => dist (origVecs.getD i []) (origVecs.getD j []))) with
  | none => 0
  | some b => b

/-- `privacyRisk(originalData, syntheticData)`: `none` is the `null`
"cannot compute" sentinel. -/
noncomputable def privacyRisk (originalData syntheticData : List Row) :
    Option Assessment :=
  if originalData.length = 0 ∨ syntheticData.length = 0 then none
  else
    let keys := quasiKeys.filter (fun k => (jsGet (syntheticData.headD []) k).isSome)
    if keys.length = 0 then none
    else
      let origVecs := originalData.map (toVec originalData keys)
      let synthVecs := syntheticData.map (toVec originalData keys)
      let dists := synthVecs.map (nnDist origVecs)
      let origNearest := ((List.range origVecs.length).map
        (origNearestAt origVecs)).filter (fun v => 0 < v)
      let baseline :=
        if origNearest.length = 0 then 1
        else (origNearest.insertionSort (· ≤ ·)).getD (origNearest.length / 2) 0
      let threshold := max (1/10000) (baseline * (6/10))
      let flagged := (dists.filter (fun d => d < threshold)).length
      let riskPercent := jsRoundR ((flagged : ℝ) / (dists.length : ℝ) * 100)
      some ⟨riskPercent, toFixed3R threshold, flagged⟩

/-! ## Claim-side definitions

Definitions below render claims' own wording (for refinement comparison
against the source-derived definitions above), plus concrete fixtures used
in witnesses and counterexamples. -/

/-- A numeric cell as claim C3 reads it: "a finite number or absent";
`""` and malformed strings are the absent/malformed cases that are said to
contribute zero. -/
def optNum : CellVal → Option ℚ
  | .num q => some q
  | _ => none

/-- The score exactly as claim C3 words it: +1 for each of the four
threshold conditions (value at or below / above the cutoff), −1 when
Ferritin is below 15, and an absent or malformed field contributing zero. -/
def claimScore (r : CleanRow) : ℤ :=
  (match optNum r.MCV with
   | some x => if x ≤ 80 then 1 else 0
   | none => 0) +
  (match optNum r.MCH with
   | some x => if x ≤ 27 then 1 else 0
   | none => 0) +
  (match optNum r.Hemoglobin with
   | some x => if x ≤ 12 then 1 else 0
   | none => 0) +
  (match optNum r.RBC with
   | some x => if 4 < x then 1 else 0
   | none => 0) +
  (match optNum r.Ferritin with
   | some x => if x < 15 then -1 else 0
   | none => 0)

/-- Claim C3's classifier: true iff `claimScore ≥ 2`. -/
def claimClassify (r : CleanRow) : Bool := 2 ≤ claimScore r

/-- The Ferritin contribution as the code actually behaves on cleaned
cells: −1 for a value below 15 *or* an absent cell (`Number("") = 0 < 15`),
0 for a malformed cell. -/
def ferritinContrib (v : CellVal) : ℤ :=
  match v with
  | .num q => if q < 15 then -1 else 0
  | .blank => -1
  | _ => 0

/-- The score with the two divergences from claim C3's wording repaired to
match the code: the three low cutoffs also require a positive value, and
the Ferritin decrement fires for an absent cell as well
(`Number("") = 0 < 15`). -/
def amendedScore (r : CleanRow) : ℤ :=
  (match optNum r.MCV with
   | some x => if 0 < x ∧ x ≤ 80 then 1 else 0
   | none => 0) +
  (match optNum r.MCH with
   | some x => if 0 < x ∧ x ≤ 27 then 1 else 0
   | none => 0) +
  (match optNum r.Hemoglobin with
   | some x => if 0 < x ∧ x ≤ 12 then 1 else 0
   | none => 0) +
  (match optNum r.RBC with
   | some x => if 4 < x then 1 else 0
   | none => 0) +
  ferritinContrib r.Ferritin

/-- A cleaned numeric cell: a number, the absent marker, or a leftover
non-numeric string — never a boolean and never `NaN` (what `selectAndClean`
actually produces). -/
def cleanCell : CellVal → Prop
  | .bool _ => False
  | .nan => False
  | _ => True

instance : DecidablePred cleanCell := fun v => by
  cases v <;> simp [cleanCell] <;> infer_instance

/-- "Whenever `privacyRisk` returns a numeric result, its `riskPercent`
lies in [0,100]" as a predicate on the optional result. -/
def riskPercentBounded : Option Assessment → Prop
  | none => True
  | some a => 0 ≤ a.riskPercent ∧ a.riskPercent ≤ 100

/-! ### Concrete fixtures -/

/-- C3's failing row: two strong signals (MCV 79, MCH 26), Ferritin absent. -/
def cexRow : CleanRow :=
  ⟨"P001", "Unknown", "Unknown", .blank, .num 79, .num 26, .blank, .blank, false⟩

/-- A one-row original dataset for the generation witness. -/
def orig1 : List CleanRow :=
  [⟨"P001", "F", "Minor", .num 11, .num 70, .num 24, .num 5, .num 30, true⟩]

/-- A constant random stream. -/
def rngHalf : RandStream := fun _ => 1/2

/-- The spec's boundary histogram example: values 0,10,…,100. -/
def exRows : List Row :=
  [[("v", CellVal.num 0)], [("v", CellVal.num 10)], [("v", CellVal.num 20)],
   [("v", CellVal.num 30)], [("v", CellVal.num 40)], [("v", CellVal.num 50)],
   [("v", CellVal.num 60)], [("v", CellVal.num 70)], [("v", CellVal.num 80)],
   [("v", CellVal.num 90)], [("v", CellVal.num 100)]]

/-- Two rows with the same single value, for the degenerate histogram
witness. -/
def valRows2 : List Row := [[("v", CellVal.num 5)], [("v", CellVal.num 5)]]

/-- Three rows with values 0, 0, 1: bin percents are not exact thirds. -/
def rows3 : List Row :=
  [[("v", CellVal.num 0)], [("v", CellVal.num 0)], [("v", CellVal.num 1)]]

/-- A single row whose only value 50 sits mid-range of an explicit
[0,100] global range. -/
def midRows : List Row := [[("Hemoglobin", CellVal.num 50)]]

/-- The histogram the quality score actually smooths: 6 bins, all mass in
bin 3. -/
def hist6 : List HistBin :=
  computeHistogramPercent midRows "Hemoglobin" 6 (some (0, 100))

/-- A 9-bin percent series with all mass in the middle, for the smoothing
counterexample. -/
def s9 : List HistBin :=
  [⟨0, 0, 0⟩, ⟨1, 1, 0⟩, ⟨2, 2, 0⟩, ⟨3, 3, 0⟩, ⟨4, 4, 100⟩,
   ⟨5, 5, 0⟩, ⟨6, 6, 0⟩, ⟨7, 7, 0⟩, ⟨8, 8, 0⟩]

/-- A row with categorical value "A". -/
def rowA : Row := [("Genotype", CellVal.txt "A")]

/-- A row with categorical value "B". -/
def rowB : Row := [("Genotype", CellVal.txt "B")]

/-- 20 rows: "B" appears in exactly 5% of them. -/
def orig20ex : List Row := List.replicate 19 rowA ++ [rowB]

/-- 21 rows: "B" appears in ≈4.8% (< 5%) of them. -/
def orig21ex : List Row := List.replicate 20 rowA ++ [rowB]

/-- A generic numeric row for privacy witnesses. -/
def rowH : Row := [("Hemoglobin", CellVal.num 10)]

/-! # Theorems -/

/-! ## Rounding and clamping -/

theorem roundTo_mono (d : ℕ) {a b : ℚ} (h : a ≤ b) : roundTo d a ≤ roundTo d b := by
  have h10 : (0:ℚ) < (10:ℚ) ^ d := by positivity
  have key : jsRound (a * (10:ℚ) ^ d) ≤ jsRound (b * (10:ℚ) ^ d) := by
    apply Int.floor_le_floor
    have hm : a * (10:ℚ) ^ d ≤ b * (10:ℚ) ^ d :=
      mul_le_mul_of_nonneg_right h h10.le
    linarith
  unfold roundTo
  gcongr

theorem roundTo_fixed_le {d : ℕ} {lo x : ℚ} (hlo : roundTo d lo = lo)
    (h : lo ≤ x) : lo ≤ roundTo d x :=
  hlo ▸ roundTo_mono d h

theorem roundTo_fixed_ge {d : ℕ} {hi x : ℚ} (hhi : roundTo d hi = hi)
    (h : x ≤ hi) : roundTo d x ≤ hi :=
  hhi ▸ roundTo_mono d h

theorem clamp_round_bounds (d : ℕ) (lo hi x : ℚ) (hlohi : lo ≤ hi)
    (hlo : roundTo d lo = lo) (hhi : roundTo d hi = hi) :
    lo ≤ roundTo d (max lo (min hi x)) ∧ roundTo d (max lo (min hi x)) ≤ hi :=
  ⟨roundTo_fixed_le hlo (le_max_left _ _),
   roundTo_fixed_ge hhi (max_le hlohi (min_le_left _ _))⟩

/-! ## C2 — noise calibrator output within the selected profile bounds -/

/-- C2 (confirmed): for each of the five configured numeric fields and
every finite numeric input value, the numeric path of `applyMedicalNoise`
returns a value within `[min, max]` of the selected profile — the
signature (thal) profile when `preserveSignature` is true (one is defined
for every field), otherwise the general profile — for all random draws and
both values of `preserveSignature`.  The result is a rational number, in
particular finite. -/
theorem C2_noise_within_selected_profile (k : NumKey) (q : ℚ) (pt : Bool)
    (r1 r2 : ℚ) :
    (selectedCfg k pt).min ≤ applyMedicalNoiseNum k q pt r1 r2 ∧
    applyMedicalNoiseNum k q pt r1 r2 ≤ (selectedCfg k pt).max := by
  cases k <;> cases pt <;>
    simp only [applyMedicalNoiseNum, selectedCfg, thalRanges, commonRanges,
      roundForKey, if_true, if_false, Bool.false_eq_true] <;>
    exact clamp_round_bounds _ _ _ _ (by norm_num)
      (by norm_num [roundTo, jsRound]) (by norm_num [roundTo, jsRound])

/-! ## C6 — the small-value jitter -/

/-- C6 counterexample: at field Hemoglobin, input 5 (< 10) and draws
r1 = r2 = 3/4, the value entering the clipping step is *not*
`input + uniform perturbation + jitter` as the claim states: the jitter
assignment overwrites the uniform perturbation. -/
theorem C6_jitter_not_additive_counterexample :
    preClipValue (commonRanges .Hemoglobin) 5 (3/4) (3/4) ≠
      5 + ((3/4 : ℚ) * 2 - 1) * (commonRanges .Hemoglobin).noisePct * max 1 5 +
        ((3/4 : ℚ) * (1/2) - 1/4) := by
  norm_num [preClipValue, commonRanges]

/-- C6 (amended): for every configured field profile and every finite
input below the small-value cutoff (< 10), the fixed-magnitude jitter
*replaces* the uniform perturbation of step 2: the value entering the
clipping step equals the input plus the jitter alone. -/
theorem C6_jitter_replaces_uniform_noise (cfg : NoiseCfg) (num r1 r2 : ℚ)
    (h : num < 10) :
    preClipValue cfg num r1 r2 = num + (r2 * (1/2) - 1/4) := by
  unfold preClipValue
  simp [h]

/-- Witness for C6 at field Hemoglobin, input 5, draws 3/4. -/
theorem C6_jitter_replaces_uniform_noise_witness :
    preClipValue (commonRanges .Hemoglobin) 5 (3/4) (3/4) =
      5 + ((3/4 : ℚ) * (1/2) - 1/4) :=
  C6_jitter_replaces_uniform_noise (commonRanges .Hemoglobin) 5 (3/4) (3/4)
    (by norm_num)

/-! ## C3 — the signature classifier -/

/-- C3 counterexample: the row with MCV 79 and MCH 26 (two positive
signals) and Hemoglobin/RBC/Ferritin absent.  The claim's score is 2, so
the claim says `classify` returns true; the code coerces the absent
Ferritin with `Number("") = 0 < 15`, decrements, and returns false. -/
theorem C3_absent_ferritin_counterexample :
    claimClassify cexRow = true ∧ isLikelyThalassemia cexRow = false := by
  decide

theorem contrib_low_cutoff (c : ℚ) (v : CellVal) (hv : cleanCell v) :
    (match jsNumber v with
     | some x => if 0 < x ∧ x ≤ c then (1:ℤ) else 0
     | none => 0) =
    (match optNum v with
     | some x => if 0 < x ∧ x ≤ c then (1:ℤ) else 0
     | none => 0) := by
  cases v with
  | num q => rfl
  | blank => simp [jsNumber, optNum]
  | txt s => rfl
  | bool b => exact absurd hv (by simp [cleanCell])
  | nan => rfl

theorem contrib_rbc (v : CellVal) (hv : cleanCell v) :
    (match jsNumber v with
     | some x => if 4 < x then (1:ℤ) else 0
     | none => 0) =
    (match optNum v with
     | some x => if 4 < x then (1:ℤ) else 0
     | none => 0) := by
  cases v with
  | num q => rfl
  | blank => simp [jsNumber, optNum]
  | txt s => rfl
  | bool b => exact absurd hv (by simp [cleanCell])
  | nan => rfl

theorem contrib_ferritin (v : CellVal) (hv : cleanCell v) :
    (match jsNumber v with
     | some x => if x < 15 then (-1:ℤ) else 0
     | none => 0) = ferritinContrib v := by
  cases v with
  | num q => rfl
  | blank => simp [jsNumber, ferritinContrib]
  | txt s => rfl
  | bool b => exact absurd hv (by simp [cleanCell])
  | nan => rfl

theorem thalScore_eq_amendedScore (r : CleanRow)
    (h1 : cleanCell r.Hemoglobin) (h2 : cleanCell r.MCV)
    (h3 : cleanCell r.MCH) (h4 : cleanCell r.RBC)
    (h5 : cleanCell r.Ferritin) :
    thalScore r = amendedScore r := by
  unfold thalScore amendedScore
  rw [contrib_low_cutoff 80 r.MCV h2, contrib_low_cutoff 27 r.MCH h3,
    contrib_low_cutoff 12 r.Hemoglobin h1, contrib_rbc r.RBC h4,
    contrib_ferritin r.Ferritin h5]

/-- C3 (amended): for every record whose five numeric fields are cleaned
cells (a finite number, the absent marker or a malformed string), the code
classifier returns true iff the claim-style score — corrected in two
points forced by the counterexample: the three low cutoffs also require a
strictly positive value, and the Ferritin decrement also fires when
Ferritin is absent (`Number("") = 0`) — ends at least 2. -/
theorem C3_classifier_amended (r : CleanRow)
    (h1 : cleanCell r.Hemoglobin) (h2 : cleanCell r.MCV)
    (h3 : cleanCell r.MCH) (h4 : cleanCell r.RBC)
    (h5 : cleanCell r.Ferritin) :
    isLikelyThalassemia r = true ↔ 2 ≤ amendedScore r := by
  unfold isLikelyThalassemia
  rw [thalScore_eq_amendedScore r h1 h2 h3 h4 h5]
  exact decide_eq_true_iff

/-- Witness for C3 (amended) on a concrete fully-signalled row. -/
theorem C3_classifier_amended_witness :
    isLikelyThalassemia
        ⟨"P001", "F", "Minor", .num 11, .num 70, .num 24, .num 5, .num 30, true⟩ = true ↔
      2 ≤ amendedScore
        ⟨"P001", "F", "Minor", .num 11, .num 70, .num 24, .num 5, .num 30, true⟩ :=
  C3_classifier_amended _ (by decide) (by decide) (by decide) (by decide) (by decide)

/-! ## Histogram machinery -/

theorem bumpAt_length (l : List ℕ) (i : ℕ) : (bumpAt l i).length = l.length := by
  induction l generalizing i with
  | nil => rfl
  | cons c rest ih =>
    cases i with
    | zero => rfl
    | succ n => simp [bumpAt, ih]

theorem bumpAt_getD (l : List ℕ) (i j : ℕ) (h : i < l.length) :
    (bumpAt l i).getD j 0 = if j = i then l.getD j 0 + 1 else l.getD j 0 := by
  induction l generalizing i j with
  | nil => simp at h
  | cons c rest ih =>
    cases i with
    | zero =>
      cases j with
      | zero => simp [bumpAt]
      | succ m => simp [bumpAt]
    | succ n =>
      cases j with
      | zero => simp [bumpAt]
      | succ m =>
        simp only [bumpAt, List.getD_cons_succ]
        rw [ih n m (by simpa using h)]
        by_cases hmn : m = n
        · simp [hmn]
        · rw [if_neg hmn, if_neg (by omega)]

theorem histIdx_lt (mn bw : ℚ) (bins : ℕ) (v : ℚ) (hb : 1 ≤ bins) :
    histIdx mn bw bins v < bins := by
  unfold histIdx clampIdx
  split
  · omega
  · split
    · omega
    · rename_i h1 h2
      omega

theorem replicate_getD_zero (n i : ℕ) : (List.replicate n (0:ℕ)).getD i 0 = 0 := by
  induction n generalizing i with
  | zero => rfl
  | succ k ih =>
    cases i with
    | zero => rfl
    | succ m => simpa [List.replicate_succ] using ih m

theorem histCounts_length (vals : List ℚ) (mn bw : ℚ) (bins : ℕ) :
    (histCounts vals mn bw bins).length = bins := by
  unfold histCounts
  suffices h : ∀ init : List ℕ,
      (vals.foldl (fun cs v => bumpAt cs (histIdx mn bw bins v)) init).length =
        init.length by
    simpa using h (List.replicate bins 0)
  intro init
  induction vals generalizing init with
  | nil => rfl
  | cons v vs ih => rw [List.foldl_cons, ih, bumpAt_length]

theorem countIn_cons (v : ℚ) (vs : List ℚ) (mn bw : ℚ) (bins i : ℕ) :
    countIn (v :: vs) mn bw bins i =
      (if histIdx mn bw bins v = i then 1 else 0) + countIn vs mn bw bins i := by
  unfold countIn
  rw [List.filter_cons]
  by_cases hv : histIdx mn bw bins v = i <;> simp [hv, Nat.add_comm]

theorem foldl_counts_getD (vals : List ℚ) (mn bw : ℚ) (bins : ℕ) (hb : 1 ≤ bins)
    (i : ℕ) :
    ∀ init : List ℕ, init.length = bins →
      (vals.foldl (fun cs v => bumpAt cs (histIdx mn bw bins v)) init).getD i 0 =
        init.getD i 0 + countIn vals mn bw bins i := by
  induction vals with
  | nil => intro init _; simp [countIn]
  | cons v vs ih =>
    intro init hlen
    rw [List.foldl_cons, ih _ (by rw [bumpAt_length]; exact hlen),
      bumpAt_getD init _ i (by rw [hlen]; exact histIdx_lt mn bw bins v hb),
      countIn_cons]
    by_cases hv : histIdx mn bw bins v = i
    · rw [if_pos hv, if_pos hv.symm]
      omega
    · rw [if_neg hv, if_neg (fun hh => hv hh.symm)]
      omega

theorem histCounts_getD (vals : List ℚ) (mn bw : ℚ) (bins : ℕ) (hb : 1 ≤ bins)
    (i : ℕ) :
    (histCounts vals mn bw bins).getD i 0 = countIn vals mn bw bins i := by
  unfold histCounts
  rw [foldl_counts_getD vals mn bw bins hb i _ (List.length_replicate _ _),
    replicate_getD_zero]
  omega

theorem indicator_sum (bins c : ℕ) (h : c < bins) :
    (∑ i in Finset.range bins, if c = i then 1 else 0) = 1 := by
  rw [Finset.sum_ite_eq]
  simp [h]

theorem sum_countIn (vals : List ℚ) (mn bw : ℚ) (bins : ℕ) (hb : 1 ≤ bins) :
    ∑ i in Finset.range bins, countIn vals mn bw bins i = vals.length := by
  induction vals with
  | nil => simp [countIn]
  | cons v vs ih =>
    simp only [countIn_cons]
    rw [Finset.sum_add_distrib, ih,
      indicator_sum bins _ (histIdx_lt mn bw bins v hb)]
    simp [Nat.add_comm]

theorem range_map_getD {α : Type} [Inhabited α] (n i : ℕ) (f : ℕ → α)
    (h : i < n) :
    ((List.range n).map f).getD i default = f i := by
  rw [List.getD_eq_getElem?_getD, List.getElem?_map, List.getElem?_range h]
  rfl

theorem range_map_sum {M : Type} [AddCommMonoid M] (n : ℕ) (f : ℕ → M) :
    ((List.range n).map f).sum = ∑ i in Finset.range n, f i := by
  induction n with
  | zero => simp
  | succ k ih =>
    rw [List.range_succ, List.map_append, List.sum_append,
      Finset.sum_range_succ, ih]
    simp

theorem hist_length (rows : List Row) (key : String) (bins : ℕ)
    (gr : Option (ℚ × ℚ)) (hv : collectVals rows key ≠ []) :
    (computeHistogramPercent rows key bins gr).length = bins := by
  simp only [computeHistogramPercent]
  rw [if_neg (by simpa [List.length_eq_zero] using hv)]
  simp

theorem hist_getD (rows : List Row) (key : String) (bins : ℕ)
    (gr : Option (ℚ × ℚ)) (hb : 1 ≤ bins) (hv : collectVals rows key ≠ [])
    (i : ℕ) (hi : i < bins) :
    (computeHistogramPercent rows key bins gr).getD i default =
      ⟨i,
       toFixed3 (histMn (collectVals rows key) gr +
         ((i : ℚ) + 1/2) * histBinW (collectVals rows key) gr bins),
       toFixed3 (((countIn (collectVals rows key)
           (histMn (collectVals rows key) gr)
           (histBinW (collectVals rows key) gr bins) bins i : ℚ) /
         ((collectVals rows key).length : ℚ)) * 100)⟩ := by
  simp only [computeHistogramPercent]
  rw [if_neg (by simpa [List.length_eq_zero] using hv)]
  rw [range_map_getD bins i _ hi]
  rw [histCounts_getD _ _ _ _ hb i]

/-! ## C10 — total on degenerate input -/

theorem foldl_min_allEq (c : ℚ) (xs : List ℚ) :
    ∀ acc : ℚ, (∀ v ∈ xs, v = c) → acc = c → xs.foldl min acc = c := by
  induction xs with
  | nil => intro acc _ hacc; exact hacc
  | cons x xs ih =>
    intro acc hall hacc
    rw [List.foldl_cons]
    refine ih _ (fun v hv => hall v (List.mem_cons_of_mem _ hv)) ?_
    rw [hall x (List.mem_cons_self _ _), hacc]
    exact min_self c

theorem foldl_max_allEq (c : ℚ) (xs : List ℚ) :
    ∀ acc : ℚ, (∀ v ∈ xs, v = c) → acc = c → xs.foldl max acc = c := by
  induction xs with
  | nil => intro acc _ hacc; exact hacc
  | cons x xs ih =>
    intro acc hall hacc
    rw [List.foldl_cons]
    refine ih _ (fun v hv => hall v (List.mem_cons_of_mem _ hv)) ?_
    rw [hall x (List.mem_cons_self _ _), hacc]
    exact max_self c

theorem listMin_allEq (l : List ℚ) (c : ℚ) (hne : l ≠ [])
    (hall : ∀ v ∈ l, v = c) : listMin l = c := by
  cases l with
  | nil => exact absurd rfl hne
  | cons x xs =>
    exact foldl_min_allEq c xs x
      (fun v hv => hall v (List.mem_cons_of_mem _ hv))
      (hall x (List.mem_cons_self _ _))

theorem listMax_allEq (l : List ℚ) (c : ℚ) (hne : l ≠ [])
    (hall : ∀ v ∈ l, v = c) : listMax l = c := by
  cases l with
  | nil => exact absurd rfl hne
  | cons x xs =>
    exact foldl_max_allEq c xs x
      (fun v hv => hall v (List.mem_cons_of_mem _ hv))
      (hall x (List.mem_cons_self _ _))

/-- C10 (confirmed): on a dataset whose collected finite values are all
equal, the range falls back to 1, the bin width `1/bins` is positive (no
division by zero), every value is assigned bin index 0, and bin 0 carries
100% of the mass while every other bin carries 0%. -/
theorem C10_degenerate_histogram_total (rows : List Row) (key : String)
    (bins : ℕ) (c : ℚ) (hb : 1 ≤ bins) (hne : collectVals rows key ≠ [])
    (hall : ∀ v ∈ collectVals rows key, v = c) :
    histRange (collectVals rows key) none = 1 ∧
    0 < histBinW (collectVals rows key) none bins ∧
    (∀ v ∈ collectVals rows key,
      histIdx (histMn (collectVals rows key) none)
        (histBinW (collectVals rows key) none bins) bins v = 0) ∧
    (computeHistogramPercent rows key bins none).length = bins ∧
    ((computeHistogramPercent rows key bins none).getD 0 default).percent = 100 ∧
    (∀ i, 1 ≤ i → i < bins →
      ((computeHistogramPercent rows key bins none).getD i default).percent = 0) := by
  set vals := collectVals rows key with hvals
  have hmn : histMn vals none = c := listMin_allEq vals c hne hall
  have hmx : histMx vals none = c := listMax_allEq vals c hne hall
  have hrange : histRange vals none = 1 := by
    unfold histRange
    rw [hmn, hmx, if_pos (sub_self c)]
  have hbinspos : (0:ℚ) < (bins : ℚ) := by exact_mod_cast hb
  have hbw : 0 < histBinW vals none bins := by
    unfold histBinW
    rw [hrange]
    positivity
  have hidx : ∀ v ∈ vals, histIdx (histMn vals none)
      (histBinW vals none bins) bins v = 0 := by
    intro v hvmem
    have hvc : v = c := hall v hvmem
    unfold histIdx clampIdx
    have hfloor : ⌊(v - histMn vals none) / histBinW vals none bins⌋ = 0 := by
      rw [hvc, hmn, sub_self, zero_div, Int.floor_zero]
    rw [hfloor]
    have hbz : ¬ ((bins : ℤ) ≤ 0) := by omega
    simp [hbz]
  have hlen : vals.length ≠ 0 := fun h => hne (List.length_eq_zero.mp h)
  have hcount0 : countIn vals (histMn vals none) (histBinW vals none bins) bins 0 =
      vals.length := by
    unfold countIn
    rw [List.filter_eq_self.mpr]
    intro a ha
    simpa using hidx a ha
  have hcounti : ∀ i, 1 ≤ i →
      countIn vals (histMn vals none) (histBinW vals none bins) bins i = 0 := by
    intro i hi
    unfold countIn
    rw [List.length_eq_zero]
    rw [List.filter_eq_nil]
    intro a ha
    simp only [decide_eq_true_eq]
    rw [hidx a ha]
    omega
  refine ⟨hrange, hbw, hidx, hist_length rows key bins none hne, ?_, ?_⟩
  · rw [hist_getD rows key bins none hb hne 0 (by omega)]
    simp only [← hvals, hcount0]
    rw [div_self (by exact_mod_cast hlen)]
    norm_num [toFixed3, roundTo, jsRound]
  · intro i h1 h2
    rw [hist_getD rows key bins none hb hne i h2]
    simp only [← hvals, hcounti i h1]
    norm_num [toFixed3, roundTo, jsRound]

/-- Witness for C10: two rows with the single constant value 5 and 3 bins. -/
theorem C10_degenerate_histogram_total_witness :
    histRange (collectVals valRows2 "v") none = 1 ∧
    ((computeHistogramPercent valRows2 "v" 3 none).getD 0 default).percent = 100 ∧
    ((computeHistogramPercent valRows2 "v" 3 none).getD 1 default).percent = 0 := by
  have hvals : collectVals valRows2 "v" = [5, 5] := rfl
  have hne : collectVals valRows2 "v" ≠ [] := by rw [hvals]; simp
  have hall : ∀ v ∈ collectVals valRows2 "v", v = 5 := by
    rw [hvals]; intro v hv; simpa using hv
  obtain ⟨h1, _, _, _, h5, h6⟩ :=
    C10_degenerate_histogram_total valRows2 "v" 3 5 (by omega) hne hall
  exact ⟨h1, h5, h6 1 (by omega) (by omega)⟩

/-! ## C9 — histogram binning -/

/-- C9 counterexample: with values [0,0,1] and 3 bins, bin 0's stored
percent is the 3-decimal rounding 66.667, not exactly `100 × (2/3)` as the
claim's equation states: `computeHistogramPercent` stores
`Number(((count/total)*100).toFixed(3))`. -/
theorem C9_exact_percent_counterexample :
    ((computeHistogramPercent rows3 "v" 3 none).getD 0 default).percent ≠
      100 * ((2 : ℚ) / 3) := by
  have hvals : collectVals rows3 "v" = [0, 0, 1] := rfl
  have hmn : histMn ([0, 0, 1] : List ℚ) none = 0 := by
    norm_num [histMn, listMin, min_def]
  have hmx : histMx ([0, 0, 1] : List ℚ) none = 1 := by
    norm_num [histMx, listMax, max_def]
  have hbw : histBinW ([0, 0, 1] : List ℚ) none 3 = 1/3 := by
    norm_num [histBinW, histRange, hmn, hmx]
  have hi0 : histIdx 0 (1/3) 3 0 = 0 := by norm_num [histIdx, clampIdx]
  have hi1 : histIdx 0 (1/3) 3 1 = 2 := by
    norm_num [histIdx, clampIdx]
  have hcount : countIn ([0, 0, 1] : List ℚ) 0 (1/3) 3 0 = 2 := by
    simp only [countIn, hi0, hi1, List.filter_cons, List.filter_nil]
    simp
  rw [hist_getD rows3 "v" 3 none (by omega)
    (by rw [hvals]; simp) 0 (by omega)]
  rw [hvals, hmn, hbw, hcount]
  norm_num [toFixed3, roundTo, jsRound]

/-- C9 (amended): histogram binning assigns each collected finite value to
bin `floor((value − min)/binWidth)` clamped to `[0, binCount−1]`; output
bin `i` carries `binIndex = i` and percent equal to
`100 × (count in bin / total values)` *rounded to three decimals* (the
rounding is the one correction the counterexample forces); and in the
boundary example — values 0,10,…,100, 10 bins, explicit range
{min: 0, max: 100} — the value 100 is assigned the last bin (index 9),
which then holds two of the eleven values. -/
theorem C9_binning_clamped_and_rounded :
    (∀ rows key bins gr, 1 ≤ bins → collectVals rows key ≠ [] →
      (computeHistogramPercent rows key bins gr).length = bins ∧
      (∀ i, i < bins →
        ((computeHistogramPercent rows key bins gr).getD i default).binIndex = i ∧
        ((computeHistogramPercent rows key bins gr).getD i default).percent =
          toFixed3 (((countIn (collectVals rows key)
              (histMn (collectVals rows key) gr)
              (histBinW (collectVals rows key) gr bins) bins i : ℚ) /
            ((collectVals rows key).length : ℚ)) * 100))) ∧
    histIdx (histMn (collectVals exRows "v") (some (0, 100)))
      (histBinW (collectVals exRows "v") (some (0, 100)) 10) 10 100 = 9 ∧
    countIn (collectVals exRows "v")
      (histMn (collectVals exRows "v") (some (0, 100)))
      (histBinW (collectVals exRows "v") (some (0, 100)) 10) 10 9 = 2 := by
  have hvals : collectVals exRows "v" =
      [0, 10, 20, 30, 40, 50, 60, 70, 80, 90, 100] := rfl
  have hmn : histMn (collectVals exRows "v") (some (0, 100)) = 0 := rfl
  have hbw : histBinW (collectVals exRows "v") (some (0, 100)) 10 = 10 := by
    norm_num [histBinW, histRange, histMx, histMn]
  have e0 : histIdx 0 10 10 0 = 0 := by norm_num [histIdx, clampIdx]
  have e1 : histIdx 0 10 10 10 = 1 := by norm_num [histIdx, clampIdx]
  have e2 : histIdx 0 10 10 20 = 2 := by
    norm_num [histIdx, clampIdx]
    decide
  have e3 : histIdx 0 10 10 30 = 3 := by
    norm_num [histIdx, clampIdx]
    decide
  have e4 : histIdx 0 10 10 40 = 4 := by
    norm_num [histIdx, clampIdx]
    decide
  have e5 : histIdx 0 10 10 50 = 5 := by
    norm_num [histIdx, clampIdx]
    decide
  have e6 : histIdx 0 10 10 60 = 6 := by
    norm_num [histIdx, clampIdx]
    decide
  have e7 : histIdx 0 10 10 70 = 7 := by
    norm_num [histIdx, clampIdx]
    decide
  have e8 : histIdx 0 10 10 80 = 8 := by
    norm_num [histIdx, clampIdx]
    decide
  have e9 : histIdx 0 10 10 90 = 9 := by
    norm_num [histIdx, clampIdx]
    decide
  have e10 : histIdx 0 10 10 100 = 9 := by
    norm_num [histIdx, clampIdx]
  refine ⟨?_, ?_, ?_⟩
  · intro rows key bins gr hb hv
    refine ⟨hist_length rows key bins gr hv, ?_⟩
    intro i hi
    rw [hist_getD rows key bins gr hb hv i hi]
    exact ⟨rfl, rfl⟩
  · rw [hmn, hbw]
    exact e10
  · rw [hmn, hbw, hvals]
    simp [countIn, List.filter_cons, e0, e1, e2, e3, e4, e5, e6, e7, e8, e9, e10]

/-- Witness for C9 on the concrete [0,0,1] dataset with 3 bins. -/
theorem C9_binning_clamped_and_rounded_witness :
    (computeHistogramPercent rows3 "v" 3 none).length = 3 ∧
    ((computeHistogramPercent rows3 "v" 3 none).getD 2 default).binIndex = 2 := by
  obtain ⟨h, _, _⟩ := C9_binning_clamped_and_rounded
  obtain ⟨hl, hi⟩ := h rows3 "v" 3 none (by omega)
    (by simp [show collectVals rows3 "v" = [0, 0, 1] from rfl])
  exact ⟨hl, (hi 2 (by omega)).1⟩

/-! ## Percent sums, overlap and smoothing machinery -/

theorem jsRound_le_of_lt {q : ℚ} {n : ℤ} (h : q < (n : ℚ) + 1/2) :
    jsRound q ≤ n := by
  have : jsRound q < n + 1 := Int.floor_lt.mpr (by push_cast; linarith)
  omega

theorem hist_percent_nonneg (rows : List Row) (key : String) (bins : ℕ)
    (gr : Option (ℚ × ℚ)) (hb : 1 ≤ bins) (hv : collectVals rows key ≠ [])
    (i : ℕ) (hi : i < bins) :
    0 ≤ ((computeHistogramPercent rows key bins gr).getD i default).percent := by
  rw [hist_getD rows key bins gr hb hv i hi]
  exact toFixed3_nonneg (by positivity)

theorem hist_percent_sum_bounds (rows : List Row) (key : String) (bins : ℕ)
    (gr : Option (ℚ × ℚ)) (hb : 1 ≤ bins) (hv : collectVals rows key ≠ []) :
    100 - (bins : ℚ)/2000 ≤
      (∑ i in Finset.range bins,
        ((computeHistogramPercent rows key bins gr).getD i default).percent) ∧
    (∑ i in Finset.range bins,
        ((computeHistogramPercent rows key bins gr).getD i default).percent) ≤
      100 + (bins : ℚ)/2000 := by
  have hlen : (collectVals rows key).length ≠ 0 :=
    fun h => hv (List.length_eq_zero.mp h)
  have hlenq : ((collectVals rows key).length : ℚ) ≠ 0 := by exact_mod_cast hlen
  have hpe : ∀ i ∈ Finset.range bins,
      ((computeHistogramPercent rows key bins gr).getD i default).percent =
        toFixed3 (((countIn (collectVals rows key)
            (histMn (collectVals rows key) gr)
            (histBinW (collectVals rows key) gr bins) bins i : ℚ) /
          ((collectVals rows key).length : ℚ)) * 100) := by
    intro i hi
    rw [hist_getD rows key bins gr hb hv i (Finset.mem_range.mp hi)]
  have hexact : (∑ i in Finset.range bins,
      ((countIn (collectVals rows key)
          (histMn (collectVals rows key) gr)
          (histBinW (collectVals rows key) gr bins) bins i : ℚ) /
        ((collectVals rows key).length : ℚ)) * 100) = 100 := by
    rw [← Finset.sum_mul, ← Finset.sum_div, ← Nat.cast_sum,
      sum_countIn _ _ _ _ hb, div_self hlenq, one_mul]
  rw [Finset.sum_congr rfl hpe]
  constructor
  · have hstep : ∀ i ∈ Finset.range bins,
        ((countIn (collectVals rows key)
            (histMn (collectVals rows key) gr)
            (histBinW (collectVals rows key) gr bins) bins i : ℚ) /
          ((collectVals rows key).length : ℚ)) * 100 - 1/2000 ≤
        toFixed3 (((countIn (collectVals rows key)
            (histMn (collectVals rows key) gr)
            (histBinW (collectVals rows key) gr bins) bins i : ℚ) /
          ((collectVals rows key).length : ℚ)) * 100) :=
      fun i _ => (le_toFixed3 _).le
    have := Finset.sum_le_sum hstep
    rw [Finset.sum_sub_distrib, hexact, Finset.sum_const, Finset.card_range,
      nsmul_eq_mul] at this
    calc (100 : ℚ) - (bins : ℚ)/2000 = 100 - (bins : ℚ) * (1/2000) := by ring
    _ ≤ _ := this
  · have hstep : ∀ i ∈ Finset.range bins,
        toFixed3 (((countIn (collectVals rows key)
            (histMn (collectVals rows key) gr)
            (histBinW (collectVals rows key) gr bins) bins i : ℚ) /
          ((collectVals rows key).length : ℚ)) * 100) ≤
        ((countIn (collectVals rows key)
            (histMn (collectVals rows key) gr)
            (histBinW (collectVals rows key) gr bins) bins i : ℚ) /
          ((collectVals rows key).length : ℚ)) * 100 + 1/2000 :=
      fun i _ => toFixed3_le _
    have := Finset.sum_le_sum hstep
    rw [Finset.sum_add_distrib, hexact, Finset.sum_const, Finset.card_range,
      nsmul_eq_mul] at this
    calc _ ≤ (100 : ℚ) + (bins : ℚ) * (1/2000) := this
    _ = 100 + (bins : ℚ)/2000 := by ring

theorem overlapScore_eq_sum (a b : List HistBin) (hab : a.length = b.length)
    (hne : a.length ≠ 0) :
    overlapScore a b = some (jsRound (∑ i in Finset.range a.length,
      min ((a.getD i default).percent) ((b.getD i default).percent))) := by
  unfold overlapScore
  rw [if_neg (by omega)]
  rw [range_map_sum, ← hab, min_self]

theorem smoothSeries_length (series : List HistBin) (window : ℕ) :
    (smoothSeries series window).length = series.length := by
  unfold smoothSeries
  split
  · rfl
  · simp

theorem smoothSeries_getD (series : List HistBin) (window : ℕ)
    (hlen : 1 < series.length) (i : ℕ) (hi : i < series.length) :
    (smoothSeries series window).getD i default =
      { series.getD i default with percent := toFixed3 (
          (((List.range (min (series.length - 1) (i + window / 2) + 1 -
              (i - window / 2))).map
            (fun j => (series.getD ((i - window / 2) + j) default).percent)).sum) /
          ((min (series.length - 1) (i + window / 2) + 1 -
            (i - window / 2) : ℕ) : ℚ)) } := by
  unfold smoothSeries
  rw [if_neg (by omega)]
  rw [range_map_getD _ _ _ hi]

/-! ## C5 — overlap score -/

/-- C5 (amended): the overlap score is symmetric for all aligned pairs;
for *unsmoothed* histograms over at most 999 bins, self-overlap is exactly
100 and pair overlaps lie in [0,100].  (The counterexample shows that
after the window-5 smoothing the quality-score path actually applies, the
score can exceed 100, which is the one correction to the claim.) -/
theorem C5_overlap_symm_self_bounds :
    (∀ a b, overlapScore a b = overlapScore b a) ∧
    (∀ rows key bins gr, 1 ≤ bins → bins ≤ 999 → collectVals rows key ≠ [] →
      overlapScore (computeHistogramPercent rows key bins gr)
        (computeHistogramPercent rows key bins gr) = some 100) ∧
    (∀ rows1 rows2 key bins gr, 1 ≤ bins → bins ≤ 999 →
      collectVals rows1 key ≠ [] → collectVals rows2 key ≠ [] →
      ∃ n : ℤ, overlapScore (computeHistogramPercent rows1 key bins gr)
          (computeHistogramPercent rows2 key bins gr) = some n ∧
        0 ≤ n ∧ n ≤ 100) := by
  refine ⟨?_, ?_, ?_⟩
  · intro a b
    unfold overlapScore
    by_cases ha : a.length = 0 <;> by_cases hbz : b.length = 0 <;>
      simp [ha, hbz, min_comm]
  · intro rows key bins gr hb1 hb2 hv
    have hlen := hist_length rows key bins gr hv
    rw [overlapScore_eq_sum _ _ rfl (by omega)]
    have hmin : (∑ i in Finset.range
          (computeHistogramPercent rows key bins gr).length,
        min (((computeHistogramPercent rows key bins gr).getD i default).percent)
          (((computeHistogramPercent rows key bins gr).getD i default).percent)) =
        ∑ i in Finset.range bins,
          ((computeHistogramPercent rows key bins gr).getD i default).percent := by
      rw [hlen]
      exact Finset.sum_congr rfl (fun i _ => min_self _)
    rw [hmin]
    obtain ⟨hlo, hhi⟩ := hist_percent_sum_bounds rows key bins gr hb1 hv
    have hbq : (bins : ℚ) ≤ 999 := by exact_mod_cast hb2
    have : jsRound (∑ i in Finset.range bins,
        ((computeHistogramPercent rows key bins gr).getD i default).percent) =
        100 := by
      unfold jsRound
      rw [Int.floor_eq_iff]
      constructor
      · push_cast
        linarith
      · push_cast
        linarith
    rw [this]
  · intro rows1 rows2 key bins gr hb1 hb2 hv1 hv2
    have hl1 := hist_length rows1 key bins gr hv1
    have hl2 := hist_length rows2 key bins gr hv2
    refine ⟨_, overlapScore_eq_sum _ _ (by rw [hl1, hl2]) (by omega), ?_, ?_⟩
    · apply jsRound_nonneg
      apply Finset.sum_nonneg
      intro i hi
      have hi' : i < bins := by
        rw [hl1] at hi
        exact Finset.mem_range.mp hi
      exact le_min (hist_percent_nonneg rows1 key bins gr hb1 hv1 i hi')
        (hist_percent_nonneg rows2 key bins gr hb1 hv2 i hi')
    · apply jsRound_le_of_lt
      obtain ⟨_, hhi⟩ := hist_percent_sum_bounds rows1 key bins gr hb1 hv1
      have hbq : (bins : ℚ) ≤ 999 := by exact_mod_cast hb2
      have hstep : (∑ i in Finset.range
            (computeHistogramPercent rows1 key bins gr).length,
          min (((computeHistogramPercent rows1 key bins gr).getD i default).percent)
            (((computeHistogramPercent rows2 key bins gr).getD i default).percent)) ≤
          ∑ i in Finset.range bins,
            ((computeHistogramPercent rows1 key bins gr).getD i default).percent := by
        rw [hl1]
        exact Finset.sum_le_sum (fun i _ => min_le_left _ _)
      push_cast
      linarith

/-- Witness for C5 at concrete inputs. -/
theorem C5_overlap_symm_self_bounds_witness :
    overlapScore s9 hist6 = overlapScore hist6 s9 ∧
    overlapScore (computeHistogramPercent rows3 "v" 3 none)
      (computeHistogramPercent rows3 "v" 3 none) = some 100 ∧
    (∃ n : ℤ, overlapScore (computeHistogramPercent rows3 "v" 3 none)
        (computeHistogramPercent valRows2 "v" 3 none) = some n ∧
      0 ≤ n ∧ n ≤ 100) := by
  obtain ⟨h1, h2, h3⟩ := C5_overlap_symm_self_bounds
  exact ⟨h1 s9 hist6,
    h2 rows3 "v" 3 none (by omega) (by omega)
      (by simp [show collectVals rows3 "v" = [0, 0, 1] from rfl]),
    h3 rows3 valRows2 "v" 3 none (by omega) (by omega)
      (by simp [show collectVals rows3 "v" = [0, 0, 1] from rfl])
      (by simp [show collectVals valRows2 "v" = [5, 5] from rfl])⟩

/-- C5 counterexample: in the program's actual quality-score path the
overlap is applied to *smoothed* histograms, and there it escapes [0,100]:
the single-value histogram `hist6` (all mass mid-range in bin 3 of 6),
smoothed with the fixed window 5 and compared with itself, scores 123 —
which also refutes `overlap(hist, hist) = 100` for this smoothed
histogram. -/
theorem C5_smoothed_overlap_123_counterexample :
    overlapScore (smoothSeries hist6 5) (smoothSeries hist6 5) = some 123 ∧
    ¬ ((123 : ℤ) ≤ 100) := by
  have hv6 : collectVals midRows "Hemoglobin" ≠ [] := by
    simp [show collectVals midRows "Hemoglobin" = [50] from rfl]
  have hb6 : (1 : ℕ) ≤ 6 := by omega
  have hlen6 : hist6.length = 6 :=
    hist_length midRows "Hemoglobin" 6 (some (0, 100)) hv6
  have hmn6 : histMn ([50] : List ℚ) (some (0, 100)) = 0 := rfl
  have hbw6 : histBinW ([50] : List ℚ) (some (0, 100)) 6 = 50/3 := by
    norm_num [histBinW, histRange, histMx, histMn]
  have hidx50 : histIdx 0 (50/3) 6 50 = 3 := by
    norm_num [histIdx, clampIdx]
    decide
  have hq : ∀ i, i < 6 → (hist6.getD i default).percent =
      if 3 = i then 100 else 0 := by
    intro i hi
    have hgd := hist_getD midRows "Hemoglobin" 6 (some (0, 100)) hb6 hv6 i hi
    rw [show hist6 = computeHistogramPercent midRows "Hemoglobin" 6
      (some (0, 100)) from rfl, hgd,
      show collectVals midRows "Hemoglobin" = [50] from rfl, hmn6, hbw6]
    have hcnt : countIn ([50] : List ℚ) 0 (50/3) 6 i =
        if 3 = i then 1 else 0 := by
      rw [show ([50] : List ℚ) = 50 :: ([] : List ℚ) from rfl, countIn_cons,
        hidx50]
      simp [countIn]
    rw [hcnt]
    by_cases h3 : 3 = i
    · rw [if_pos h3, if_pos h3]
      norm_num [toFixed3, roundTo, jsRound]
    · rw [if_neg h3, if_neg h3]
      norm_num [toFixed3, roundTo, jsRound]
  have hq' : ∀ i, i < 6 → ((hist6[i]?).getD default).percent =
      if 3 = i then 100 else 0 := by
    intro i hi
    rw [← List.getD_eq_getElem?_getD]
    exact hq i hi
  have hgt1 : 1 < hist6.length := by omega
  have hs0 : ((smoothSeries hist6 5).getD 0 default).percent = 0 := by
    rw [smoothSeries_getD hist6 5 hgt1 0 (by omega), hlen6]
    norm_num
    rw [show List.range 3 = [0, 1, 2] from rfl]
    simp only [List.map_cons, List.map_nil, List.sum_cons, List.sum_nil]
    norm_num [hq' 0 (by omega), hq' 1 (by omega), hq' 2 (by omega),
      toFixed3, roundTo, jsRound]
  have hs1 : ((smoothSeries hist6 5).getD 1 default).percent = 25 := by
    rw [smoothSeries_getD hist6 5 hgt1 1 (by omega), hlen6]
    norm_num
    rw [show List.range 4 = [0, 1, 2, 3] from rfl]
    simp only [List.map_cons, List.map_nil, List.sum_cons, List.sum_nil]
    norm_num [hq' 0 (by omega), hq' 1 (by omega), hq' 2 (by omega),
      hq' 3 (by omega), toFixed3, roundTo, jsRound]
  have hs2 : ((smoothSeries hist6 5).getD 2 default).percent = 20 := by
    rw [smoothSeries_getD hist6 5 hgt1 2 (by omega), hlen6]
    norm_num
    rw [show List.range 5 = [0, 1, 2, 3, 4] from rfl]
    simp only [List.map_cons, List.map_nil, List.sum_cons, List.sum_nil]
    norm_num [hq' 0 (by omega), hq' 1 (by omega), hq' 2 (by omega),
      hq' 3 (by omega), hq' 4 (by omega), toFixed3, roundTo, jsRound]
  have hs3 : ((smoothSeries hist6 5).getD 3 default).percent = 20 := by
    rw [smoothSeries_getD hist6 5 hgt1 3 (by omega), hlen6]
    norm_num
    rw [show List.range 5 = [0, 1, 2, 3, 4] from rfl]
    simp only [List.map_cons, List.map_nil, List.sum_cons, List.sum_nil]
    norm_num [hq' 1 (by omega), hq' 2 (by omega), hq' 3 (by omega),
      hq' 4 (by omega), hq' 5 (by omega), toFixed3, roundTo, jsRound]
  have hs4 : ((smoothSeries hist6 5).getD 4 default).percent = 25 := by
    rw [smoothSeries_getD hist6 5 hgt1 4 (by omega), hlen6]
    norm_num
    rw [show List.range 4 = [0, 1, 2, 3] from rfl]
    simp only [List.map_cons, List.map_nil, List.sum_cons, List.sum_nil]
    norm_num [hq' 2 (by omega), hq' 3 (by omega), hq' 4 (by omega),
      hq' 5 (by omega), toFixed3, roundTo, jsRound]
  have hs5 : ((smoothSeries hist6 5).getD 5 default).percent = 33333/1000 := by
    rw [smoothSeries_getD hist6 5 hgt1 5 (by omega), hlen6]
    norm_num
    rw [show List.range 3 = [0, 1, 2] from rfl]
    simp only [List.map_cons, List.map_nil, List.sum_cons, List.sum_nil]
    norm_num [hq' 3 (by omega), hq' 4 (by omega), hq' 5 (by omega),
      toFixed3, roundTo, jsRound]
  have hslen : (smoothSeries hist6 5).length = 6 := by
    rw [smoothSeries_length, hlen6]
  refine ⟨?_, by omega⟩
  rw [overlapScore_eq_sum _ _ rfl (by omega), hslen]
  simp only [Finset.sum_range_succ, Finset.sum_range_zero, hs0, hs1, hs2, hs3,
    hs4, hs5, min_self]
  norm_num [jsRound]

/-! ## C7 — smoothing is not idempotent -/

/-- C7 counterexample: for the 9-bin series with all mass at index 4,
re-smoothing the already-smoothed series changes the *interior* element at
index 3 (which is a half-window — `⌊5/2⌋ = 2` — away from both ends) from
20 to 16.  A centered moving average is not idempotent away from the
boundary. -/
theorem C7_resmoothing_changes_interior_counterexample :
    ((smoothSeries (smoothSeries s9 5) 5).getD 3 default).percent ≠
      ((smoothSeries s9 5).getD 3 default).percent ∧
    5 / 2 ≤ 3 ∧ 3 + 5 / 2 ≤ s9.length - 1 := by
  have hlen9 : s9.length = 9 := rfl
  have hgt1 : 1 < s9.length := by rw [hlen9]; omega
  have hq9 : ∀ i, i < 9 → ((s9[i]?).getD default).percent =
      if i = 4 then 100 else 0 := by
    intro i hi
    interval_cases i <;> rfl
  have hs1 : ((smoothSeries s9 5).getD 1 default).percent = 0 := by
    rw [smoothSeries_getD s9 5 hgt1 1 (by omega), hlen9]
    norm_num
    rw [show List.range 4 = [0, 1, 2, 3] from rfl]
    simp only [List.map_cons, List.map_nil, List.sum_cons, List.sum_nil]
    norm_num [hq9 0 (by omega), hq9 1 (by omega), hq9 2 (by omega),
      hq9 3 (by omega), toFixed3, roundTo, jsRound]
  have hs2 : ((smoothSeries s9 5).getD 2 default).percent = 20 := by
    rw [smoothSeries_getD s9 5 hgt1 2 (by omega), hlen9]
    norm_num
    rw [show List.range 5 = [0, 1, 2, 3, 4] from rfl]
    simp only [List.map_cons, List.map_nil, List.sum_cons, List.sum_nil]
    norm_num [hq9 0 (by omega), hq9 1 (by omega), hq9 2 (by omega),
      hq9 3 (by omega), hq9 4 (by omega), toFixed3, roundTo, jsRound]
  have hs3 : ((smoothSeries s9 5).getD 3 default).percent = 20 := by
    rw [smoothSeries_getD s9 5 hgt1 3 (by omega), hlen9]
    norm_num
    rw [show List.range 5 = [0, 1, 2, 3, 4] from rfl]
    simp only [List.map_cons, List.map_nil, List.sum_cons, List.sum_nil]
    norm_num [hq9 1 (by omega), hq9 2 (by omega), hq9 3 (by omega),
      hq9 4 (by omega), hq9 5 (by omega), toFixed3, roundTo, jsRound]
  have hs4 : ((smoothSeries s9 5).getD 4 default).percent = 20 := by
    rw [smoothSeries_getD s9 5 hgt1 4 (by omega), hlen9]
    norm_num
    rw [show List.range 5 = [0, 1, 2, 3, 4] from rfl]
    simp only [List.map_cons, List.map_nil, List.sum_cons, List.sum_nil]
    norm_num [hq9 2 (by omega), hq9 3 (by omega), hq9 4 (by omega),
      hq9 5 (by omega), hq9 6 (by omega), toFixed3, roundTo, jsRound]
  have hs5 : ((smoothSeries s9 5).getD 5 default).percent = 20 := by
    rw [smoothSeries_getD s9 5 hgt1 5 (by omega), hlen9]
    norm_num
    rw [show List.range 5 = [0, 1, 2, 3, 4] from rfl]
    simp only [List.map_cons, List.map_nil, List.sum_cons, List.sum_nil]
    norm_num [hq9 3 (by omega), hq9 4 (by omega), hq9 5 (by omega),
      hq9 6 (by omega), hq9 7 (by omega), toFixed3, roundTo, jsRound]
  have hs1len : (smoothSeries s9 5).length = 9 := by
    rw [smoothSeries_length, hlen9]
  have hs1' : ∀ k, k < 9 → 1 ≤ k → k ≤ 5 →
      (((smoothSeries s9 5)[k]?).getD default).percent =
        if k = 1 then 0 else 20 := by
    intro k hk hk0 hk5
    rw [← List.getD_eq_getElem?_getD]
    interval_cases k
    · simpa using hs1
    · simpa using hs2
    · simpa using hs3
    · simpa using hs4
    · simpa using hs5
  have hres : ((smoothSeries (smoothSeries s9 5) 5).getD 3 default).percent =
      16 := by
    rw [smoothSeries_getD (smoothSeries s9 5) 5 (by omega) 3 (by omega), hs1len]
    norm_num
    rw [show List.range 5 = [0, 1, 2, 3, 4] from rfl]
    simp only [List.map_cons, List.map_nil, List.sum_cons, List.sum_nil]
    norm_num [hs1' 1 (by omega) (by omega) (by omega),
      hs1' 2 (by omega) (by omega) (by omega),
      hs1' 3 (by omega) (by omega) (by omega),
      hs1' 4 (by omega) (by omega) (by omega),
      hs1' 5 (by omega) (by omega) (by omega), toFixed3, roundTo, jsRound]
  refine ⟨?_, by decide, by decide⟩
  rw [hres, hs3]
  norm_num

/-- C7 (amended): `smoothSeries` preserves the series length, and it is
idempotent only on its fixed points — e.g. a constant percent series
(already at 3-decimal precision) is left entirely unchanged; in general a
second application changes interior elements as well as edges (see the
counterexample). -/
theorem C7_smoothing_length_and_constant_fixpoint :
    (∀ series window, (smoothSeries series window).length = series.length) ∧
    (∀ (series : List HistBin) (window : ℕ) (c : ℚ),
      (∀ b ∈ series, b.percent = c) → toFixed3 c = c →
      smoothSeries series window = series) := by
  refine ⟨smoothSeries_length, ?_⟩
  intro series window c hall hfix
  by_cases hlen : series.length ≤ 1
  · unfold smoothSeries
    rw [if_pos hlen]
  · push_neg at hlen
    apply List.ext_getElem (smoothSeries_length series window)
    intro i h1 h2
    have hi : i < series.length := h2
    rw [← List.getD_eq_getElem (smoothSeries series window) default h1,
      ← List.getD_eq_getElem series default h2,
      smoothSeries_getD series window hlen i hi]
    have hle1 : i ≤ min (series.length - 1) (i + window / 2) :=
      le_min (by omega) (by omega)
    have hse : i - window / 2 ≤ min (series.length - 1) (i + window / 2) :=
      le_trans (Nat.sub_le i _) hle1
    have hcnt : 1 ≤ min (series.length - 1) (i + window / 2) + 1 -
        (i - window / 2) := by omega
    have hpc : ∀ k, k < series.length → (series.getD k default).percent = c := by
      intro k hk
      rw [List.getD_eq_getElem series default hk]
      exact hall _ (List.getElem_mem hk)
    have hsum : ((List.range (min (series.length - 1) (i + window / 2) + 1 -
        (i - window / 2))).map
        (fun j => (series.getD ((i - window / 2) + j) default).percent)).sum =
        ((min (series.length - 1) (i + window / 2) + 1 -
          (i - window / 2) : ℕ) : ℚ) * c := by
      rw [range_map_sum,
        Finset.sum_congr rfl (fun j hj => hpc ((i - window / 2) + j) (by
          have := Finset.mem_range.mp hj
          omega)),
        Finset.sum_const, Finset.card_range, nsmul_eq_mul]
    rw [hsum, mul_div_cancel_left₀ c (by
      have : (0:ℚ) < ((min (series.length - 1) (i + window / 2) + 1 -
          (i - window / 2) : ℕ) : ℚ) := by exact_mod_cast hcnt
      exact ne_of_gt this), hfix, ← hpc i hi]

/-- Witness for C7 on a concrete constant series. -/
theorem C7_smoothing_length_and_constant_fixpoint_witness :
    (smoothSeries [⟨0, 0, 10⟩, ⟨1, 1, 10⟩, ⟨2, 2, 10⟩] 5).length = 3 ∧
    smoothSeries [⟨0, 0, 10⟩, ⟨1, 1, 10⟩, ⟨2, 2, 10⟩] 5 =
      [⟨0, 0, 10⟩, ⟨1, 1, 10⟩, ⟨2, 2, 10⟩] := by
  obtain ⟨h1, h2⟩ := C7_smoothing_length_and_constant_fixpoint
  refine ⟨h1 _ 5, h2 _ 5 10 ?_ ?_⟩
  · intro b hb
    simp only [List.mem_cons, List.mem_singleton] at hb
    rcases hb with h | h | h | h
    · rw [h]
    · rw [h]
    · rw [h]
    · exact absurd h (by simp)
  · norm_num [toFixed3, roundTo, jsRound]

/-! ## C8 — rare-combination detection -/

/-- C8 (confirmed): the rare-combination report contains at most 12
entries; every reported combination's frequency is *strictly* below 5% of
the original row count (hence one at exactly 5% is excluded and one below,
e.g. ≈4.8%, is included — see the witness); and whenever at most 12
combinations are rare, the report is exactly the rare combinations, in
first-occurrence order, relabelled with the display separator. -/
theorem C8_rare_combos_cap_and_strict_cutoff (orig : List Row) :
    (computeRareCombos orig).length ≤ 12 ∧
    (∀ p ∈ computeRareCombos orig,
      (p.2 : ℚ) / max 1 (orig.length : ℚ) < 5/100) ∧
    ((rareEntries orig).length ≤ 12 →
      computeRareCombos orig = (rareEntries orig).map relabelCombo) := by
  by_cases he : orig.length = 0
  · have horig : orig = [] := List.length_eq_zero.mp he
    subst horig
    refine ⟨by simp [computeRareCombos], ?_, ?_⟩
    · intro p hp
      simp [computeRareCombos] at hp
    · intro _
      simp [computeRareCombos, rareEntries, comboCounts, countValues]
  · refine ⟨?_, ?_, ?_⟩
    · unfold computeRareCombos
      rw [if_neg he, List.length_map, List.length_take]
      omega
    · intro p hp
      unfold computeRareCombos at hp
      rw [if_neg he] at hp
      obtain ⟨q, hq, hpq⟩ := List.mem_map.mp hp
      have hq' : q ∈ rareEntries orig := List.mem_of_mem_take hq
      have hfilt := List.of_mem_filter hq'
      have hlt : (q.2 : ℚ) / max 1 (orig.length : ℚ) < 5/100 :=
        of_decide_eq_true hfilt
      rw [← hpq]
      exact hlt
    · intro hcap
      unfold computeRareCombos
      rw [if_neg he, List.take_of_length_le hcap]

/-- Witness for C8: with 20 rows the combination "B" sits at exactly 5%
and is excluded; with 21 rows it sits below 5% and is the one reported
rare entry. -/
theorem C8_rare_combos_cap_and_strict_cutoff_witness :
    computeRareCombos orig20ex = [] ∧
    computeRareCombos orig21ex = (rareEntries orig21ex).map relabelCombo ∧
    rareEntries orig20ex = [] ∧
    rareEntries orig21ex = [("B", 1)] := by
  have hcc20 : comboCounts orig20ex = [("A", 19), ("B", 1)] := rfl
  have hcc21 : comboCounts orig21ex = [("A", 20), ("B", 1)] := rfl
  have hlen20 : orig20ex.length = 20 := rfl
  have hlen21 : orig21ex.length = 21 := rfl
  have hre20 : rareEntries orig20ex = [] := by
    unfold rareEntries
    rw [hcc20, hlen20]
    norm_num [List.filter_cons, List.filter_nil, max_def]
  have hre21 : rareEntries orig21ex = [("B", 1)] := by
    unfold rareEntries
    rw [hcc21, hlen21]
    norm_num [List.filter_cons, List.filter_nil, max_def]
  obtain ⟨_, _, hcap20⟩ := C8_rare_combos_cap_and_strict_cutoff orig20ex
  obtain ⟨_, _, hcap21⟩ := C8_rare_combos_cap_and_strict_cutoff orig21ex
  refine ⟨?_, hcap21 (by rw [hre21]; simp), hre20, hre21⟩
  rw [hcap20 (by rw [hre20]; simp), hre20]
  rfl

/-! ## C1 — generation count, fresh identifiers, flag provenance -/

theorem decVal_decChar (d : ℕ) (h : d < 10) : decVal (decChar d) = d := by
  interval_cases d <;> rfl

theorem parseDec_append (l : List Char) (c : Char) :
    parseDec (l ++ [c]) = 10 * parseDec l + decVal c := by
  unfold parseDec
  rw [List.foldl_append]
  rfl

theorem parseDec_natDigits (n : ℕ) : parseDec (natDigits n) = n := by
  induction n using Nat.strong_induction_on with
  | _ n ih =>
    unfold natDigits
    split
    · rename_i h
      show parseDec [decChar n] = n
      unfold parseDec
      simp [decVal_decChar n h]
    · rename_i h
      rw [parseDec_append, ih (n / 10) (Nat.div_lt_self (by omega) (by omega)),
        decVal_decChar (n % 10) (Nat.mod_lt _ (by omega))]
      omega

theorem parseDec_replicate_zero (k : ℕ) (l : List Char) :
    parseDec (List.replicate k '0' ++ l) = parseDec l := by
  induction k with
  | zero => simp
  | succ m ih =>
    rw [List.replicate_succ, List.cons_append,
      show parseDec ('0' :: (List.replicate m '0' ++ l)) =
        parseDec (List.replicate m '0' ++ l) from rfl]
    exact ih

theorem parseDec_padStart3 (l : List Char) :
    parseDec (padStart3 l) = parseDec l := by
  unfold padStart3
  exact parseDec_replicate_zero _ _

theorem pid_inj {m n : ℕ} (h : pid m = pid n) : m = n := by
  unfold pid at h
  injection h with hdata
  injection hdata with _ htail
  have hp : parseDec (padStart3 (natDigits (m + 1))) =
      parseDec (padStart3 (natDigits (n + 1))) := by rw [htail]
  rw [parseDec_padStart3, parseDec_padStart3, parseDec_natDigits,
    parseDec_natDigits] at hp
  omega

theorem genRow_Patient_ID (catG catT : List (String × ℚ)) (means : NumKey → ℚ)
    (orig : List CleanRow) (i : ℕ) (rng : RandStream) :
    (genRow catG catT means orig i rng).1.Patient_ID = pid i := rfl

theorem genRow_flag (catG catT : List (String × ℚ)) (means : NumKey → ℚ)
    (orig : List CleanRow) (i : ℕ) (rng : RandStream) :
    (genRow catG catT means orig i rng).1.Likely_Thalassemia =
      (orig.getD (i % orig.length) default).Likely_Thalassemia := rfl

theorem genLoop_length (catG catT : List (String × ℚ)) (means : NumKey → ℚ)
    (orig : List CleanRow) :
    ∀ (rem i : ℕ) (rng : RandStream),
      (genLoop catG catT means orig i rem rng).length = rem := by
  intro rem
  induction rem with
  | zero => intro i rng; rfl
  | succ k ih =>
    intro i rng
    simp only [genLoop, List.length_cons, ih]

theorem genLoop_getD (catG catT : List (String × ℚ)) (means : NumKey → ℚ)
    (orig : List CleanRow) :
    ∀ (rem i j : ℕ) (rng : RandStream), j < rem →
      ∃ rng', (genLoop catG catT means orig i rem rng).getD j default =
        (genRow catG catT means orig (i + j) rng').1 := by
  intro rem
  induction rem with
  | zero => intro i j rng h; omega
  | succ k ih =>
    intro i j rng h
    cases j with
    | zero => exact ⟨rng, by simp [genLoop]⟩
    | succ j' =>
      obtain ⟨rng', hr⟩ :=
        ih (i + 1) j' (genRow catG catT means orig i rng).2 (by omega)
      refine ⟨rng', ?_⟩
      have hidx : i + 1 + j' = i + (j' + 1) := by omega
      rw [hidx] at hr
      simpa [genLoop] using hr

/-- C1 (confirmed): for every non-empty annotated input and count N ≥ 1
(and any random stream), `generateSyntheticFromOriginal` returns exactly N
rows; each row carries the fresh sequential identifier `pid i`, pairwise
distinct across the output; and row i carries the signature flag of base
row `input[i mod inputLength]` unchanged. -/
theorem C1_generate_count_ids_flags (orig : List CleanRow) (N : ℕ)
    (rng : RandStream) (horig : orig ≠ []) (hN : 1 ≤ N) :
    (generateSyntheticFromOriginal orig N rng).length = N ∧
    (∀ i j, i < N → j < N → i ≠ j →
      ((generateSyntheticFromOriginal orig N rng).getD i default).Patient_ID ≠
        ((generateSyntheticFromOriginal orig N rng).getD j default).Patient_ID) ∧
    (∀ i, i < N →
      ((generateSyntheticFromOriginal orig N rng).getD i
          default).Likely_Thalassemia =
        (orig.getD (i % orig.length) default).Likely_Thalassemia) := by
  refine ⟨genLoop_length _ _ _ _ N 0 rng, ?_, ?_⟩
  · intro i j hi hj hij
    unfold generateSyntheticFromOriginal
    obtain ⟨r1, h1⟩ := genLoop_getD (catChoicesFor (orig.map (·.Gender)))
      (catChoicesFor (orig.map (·.Genotype))) (genMeans orig) orig N 0 i rng hi
    obtain ⟨r2, h2⟩ := genLoop_getD (catChoicesFor (orig.map (·.Gender)))
      (catChoicesFor (orig.map (·.Genotype))) (genMeans orig) orig N 0 j rng hj
    rw [h1, h2, genRow_Patient_ID, genRow_Patient_ID]
    simp only [Nat.zero_add]
    exact fun hc => hij (pid_inj hc)
  · intro i hi
    unfold generateSyntheticFromOriginal
    obtain ⟨r1, h1⟩ := genLoop_getD (catChoicesFor (orig.map (·.Gender)))
      (catChoicesFor (orig.map (·.Genotype))) (genMeans orig) orig N 0 i rng hi
    rw [h1, genRow_flag]
    simp only [Nat.zero_add]

/-- Witness for C1 on a one-row input, two generated rows, constant
stream. -/
theorem C1_generate_count_ids_flags_witness :
    (generateSyntheticFromOriginal orig1 2 rngHalf).length = 2 ∧
    ((generateSyntheticFromOriginal orig1 2 rngHalf).getD 0
        default).Patient_ID ≠
      ((generateSyntheticFromOriginal orig1 2 rngHalf).getD 1
        default).Patient_ID ∧
    ((generateSyntheticFromOriginal orig1 2 rngHalf).getD 0
        default).Likely_Thalassemia = true := by
  obtain ⟨h1, h2, h3⟩ :=
    C1_generate_count_ids_flags orig1 2 rngHalf (by simp [orig1]) (by omega)
  refine ⟨h1, h2 0 1 (by omega) (by omega) (by omega), ?_⟩
  rw [h3 0 (by omega)]
  rfl

/-! ## C4 — privacy-risk sentinel and bounds -/

theorem jsRoundR_nonneg {x : ℝ} (h : 0 ≤ x) : 0 ≤ jsRoundR x :=
  Int.le_floor.mpr (by push_cast; linarith)

theorem jsRoundR_le_of_le {x : ℝ} {n : ℤ} (h : x ≤ (n : ℝ)) : jsRoundR x ≤ n := by
  have hlt : jsRoundR x < n + 1 := Int.floor_lt.mpr (by push_cast; linarith)
  omega

theorem ratio_jsRoundR_bounds (f n : ℕ) (hfn : f ≤ n) (hn : n ≠ 0) :
    0 ≤ jsRoundR ((f : ℝ) / (n : ℝ) * 100) ∧
    jsRoundR ((f : ℝ) / (n : ℝ) * 100) ≤ 100 := by
  have hnp : (0 : ℝ) < (n : ℝ) := by
    exact_mod_cast Nat.pos_of_ne_zero hn
  constructor
  · exact jsRoundR_nonneg (by positivity)
  · apply jsRoundR_le_of_le
    have hdiv : (f : ℝ) / (n : ℝ) ≤ 1 := by
      rw [div_le_one hnp]
      exact_mod_cast hfn
    push_cast
    nlinarith

/-- C4 counterexample: the server-side privacy metrics cited by the claim
return the all-zero numeric triple on an empty original collection — the
risk figure *is* a numeric zero, not an explicit sentinel distinguishable
from one. -/
theorem C4_server_returns_zeros_counterexample :
    computePrivacyMetrics [] [rowH] 0 = ⟨0, 0, 0⟩ ∧
    (computePrivacyMetrics [] [rowH] 0).reidRisk = 0 := by
  constructor
  · simp [computePrivacyMetrics]
  · simp [computePrivacyMetrics]

/-- C4 (amended): the client-side `privacyRisk` returns the `null`
sentinel — distinguishable from any numeric result — whenever either
collection is empty or no quasi-identifier column is present in the first
synthetic row, and every numeric result it returns has `riskPercent` an
integer (it is an `ℤ` by construction) in [0,100].  The server-side
`computePrivacyMetrics`, by contrast, returns the numeric zero triple on
empty input; that triple is distinguishable from computed results only
because a computed `attrRisk` is always at least 5. -/
theorem C4_privacy_sentinel_and_bounds :
    (∀ o s : List Row,
      (o.length = 0 ∨ s.length = 0 ∨
        (quasiKeys.filter (fun k => (jsGet (s.headD []) k).isSome)).length = 0) →
      privacyRisk o s = none) ∧
    (∀ o s : List Row, riskPercentBounded (privacyRisk o s)) ∧
    (∀ (o s : List Row) (r : ℚ), o.length = 0 ∨ s.length = 0 →
      computePrivacyMetrics o s r = ⟨0, 0, 0⟩) ∧
    (∀ (o s : List Row) (r : ℚ), o.length ≠ 0 → s.length ≠ 0 → 0 ≤ r →
      5 ≤ (computePrivacyMetrics o s r).attrRisk) := by
  refine ⟨?_, ?_, ?_, ?_⟩
  · intro o s h
    rcases h with h | h | h
    · simp only [privacyRisk]
      rw [if_pos (Or.inl h)]
    · simp only [privacyRisk]
      rw [if_pos (Or.inr h)]
    · simp only [privacyRisk]
      by_cases h2 : o.length = 0 ∨ s.length = 0
      · rw [if_pos h2]
      · rw [if_neg h2, if_pos h]
  · intro o s
    simp only [privacyRisk]
    by_cases h1 : o.length = 0 ∨ s.length = 0
    · rw [if_pos h1]
      trivial
    · rw [if_neg h1]
      by_cases h2 : (quasiKeys.filter
          (fun k => (jsGet (s.headD []) k).isSome)).length = 0
      · rw [if_pos h2]
        trivial
      · rw [if_neg h2]
        push_neg at h1
        obtain ⟨ho, hs⟩ := h1
        refine ⟨?_, ?_⟩
        · exact (ratio_jsRoundR_bounds _ _
            (List.length_filter_le _ _) (by simpa using hs)).1
        · exact (ratio_jsRoundR_bounds _ _
            (List.length_filter_le _ _) (by simpa using hs)).2
  · intro o s r h
    simp only [computePrivacyMetrics]
    rw [if_pos h]
  · intro o s r ho hs hr
    simp only [computePrivacyMetrics]
    rw [if_neg (by push_neg; exact ⟨ho, hs⟩)]
    have h1 : (5 : ℤ) ≤ jsRound (r * 10 + 5) :=
      le_jsRound_of_le (by push_cast; linarith)
    have h2 : (5 : ℤ) ≤ min 100 (jsRound (r * 10 + 5)) := le_min (by omega) h1
    exact le_trans h2 (le_max_right _ _)

/-- Witness for C4 at concrete inputs. -/
theorem C4_privacy_sentinel_and_bounds_witness :
    privacyRisk [] [rowH] = none ∧
    riskPercentBounded (privacyRisk [] [rowH]) ∧
    computePrivacyMetrics [] [rowH] 0 = ⟨0, 0, 0⟩ ∧
    5 ≤ (computePrivacyMetrics [rowH] [rowH] (1/2)).attrRisk := by
  obtain ⟨h1, h2, h3, h4⟩ := C4_privacy_sentinel_and_bounds
  exact ⟨h1 [] [rowH] (Or.inl rfl), h2 [] [rowH], h3 [] [rowH] 0 (Or.inl rfl),
    h4 [rowH] [rowH] (1/2) (by simp) (by simp) (by norm_num)⟩

end SynDataGen
